import Mathlib

/-!
Verification of the connector I/O core (data_storage.rs) of the pathway-windows-build
repository. Rust code is shallowly embedded: pure fragments become Lean functions,
stateful methods become explicit state-passing functions, machine integers become
Nat/Int, and fallible code returns Except. Container types from outside src/
(HashMap, OffsetAntichain) are modelled as association lists with the map semantics
the source relies on.
-/

namespace Pathway

/-- Event kinds attached to reader payloads (DataEventType in data_storage.rs). -/
inductive DataEventType where
  | Insert : DataEventType
  | Delete : DataEventType
  | Upsert : DataEventType
deriving DecidableEq

/-- Offset keys (connectors::OffsetKey, reconstructed from its uses in
data_storage.rs): Empty for single-stream sources, Kafka (topic, partition)
for the message bus. -/
inductive OffsetKey where
  | Empty : OffsetKey
  | Kafka (topic : String) (partition : Int) : OffsetKey
deriving DecidableEq

/-- Offset values (connectors::OffsetValue, reconstructed from its uses in
data_storage.rs). File and object positions carry total_entries_read, a path
and a byte offset; machine integers become Nat (u64) and Int (i64). The Empty
variant backs EMPTY_OFFSET (connectors::offset, not under src/), the position
used by sources without persistent positions. -/
inductive OffsetValue where
  | KafkaOffset (position : Int) : OffsetValue
  | PythonEntrySequentialId (id : Nat) : OffsetValue
  | FilePosition (total_entries_read : Nat) (path : String) (bytes_offset : Nat) : OffsetValue
  | S3ObjectPosition (total_entries_read : Nat) (path : String) (bytes_offset : Nat) : OffsetValue
  | Empty : OffsetValue
deriving DecidableEq

/-- An offset is a key paired with a value. -/
def Offset := OffsetKey × OffsetValue
deriving DecidableEq

/-- Modelled from the spec: OffsetAntichain (persistence::frontier, not under src/)
is a mapping from offset key to offset value; we embed it as an association list
whose get and advance operations have the usual finite-map semantics. -/
def OffsetAntichain := List (OffsetKey × OffsetValue)
deriving DecidableEq

/-- Modelled from the spec: lookup of a key in a frontier map. -/
def getOffset : OffsetAntichain → OffsetKey → Option OffsetValue
  | [], _ => none
  | (k0, v0) :: rest, k => if k0 = k then some v0 else getOffset rest k

/-- Modelled from the spec: store a value for a key in a frontier map
(replace the existing entry or append a fresh one). -/
def advanceOffset : OffsetAntichain → OffsetKey → OffsetValue → OffsetAntichain
  | [], k, v => [(k, v)]
  | (k0, v0) :: rest, k, v =>
    if k0 = k then (k0, v) :: rest else (k0, v0) :: advanceOffset rest k v

/-- Keys of a frontier. -/
def frontierKeys (a : OffsetAntichain) : List OffsetKey :=
  a.map Prod.fst

/-- One step of Reader::merge_two_frontiers: fold the entry (k, v) of the right
frontier into the accumulated result, advancing only when the same-variant
comparison says the right value is strictly greater; incomparable variants keep
the left value (the source only logs an error there). -/
def mergeStep (result : OffsetAntichain) (kv : OffsetKey × OffsetValue) : OffsetAntichain :=
  match getOffset result kv.1 with
  | some offset_value =>
    match offset_value, kv.2 with
    | .KafkaOffset offset_position, .KafkaOffset other_position =>
      if other_position > offset_position then advanceOffset result kv.1 kv.2 else result
    | .PythonEntrySequentialId offset_position, .PythonEntrySequentialId other_position =>
      if other_position > offset_position then advanceOffset result kv.1 kv.2 else result
    | .FilePosition offset_line_idx _ _, .FilePosition other_line_idx _ _ =>
      if other_line_idx > offset_line_idx then advanceOffset result kv.1 kv.2 else result
    | .S3ObjectPosition offset_line_idx _ _, .S3ObjectPosition other_line_idx _ _ =>
      if other_line_idx > offset_line_idx then advanceOffset result kv.1 kv.2 else result
    | _, _ => result
  | none => advanceOffset result kv.1 kv.2

/-- Reader::merge_two_frontiers: clone the left frontier and fold in every
entry of the right one. -/
def merge_two_frontiers (lhs rhs : OffsetAntichain) : OffsetAntichain :=
  rhs.foldl mergeStep lhs

/-- The strict comparison used by merge_two_frontiers: true when the two values
have the same variant and the right one is strictly greater under that variant
order (KafkaOffset and PythonEntrySequentialId by integer order, FilePosition
and S3ObjectPosition by total_entries_read). -/
def advanceWins : OffsetValue → OffsetValue → Bool
  | .KafkaOffset a, .KafkaOffset b => b > a
  | .PythonEntrySequentialId a, .PythonEntrySequentialId b => b > a
  | .FilePosition a _ _, .FilePosition b _ _ => b > a
  | .S3ObjectPosition a _ _, .S3ObjectPosition b _ _ => b > a
  | _, _ => false

/-- Whether two offset values carry the same variant tag. -/
def sameVariant : OffsetValue → OffsetValue → Bool
  | .KafkaOffset _, .KafkaOffset _ => true
  | .PythonEntrySequentialId _, .PythonEntrySequentialId _ => true
  | .FilePosition _ _ _, .FilePosition _ _ _ => true
  | .S3ObjectPosition _ _ _, .S3ObjectPosition _ _ _ => true
  | _, _ => false

/-- The integer each variant is ordered by (position, sequential id, or
total_entries_read). -/
def ovalMeasure : OffsetValue → Int
  | .KafkaOffset a => a
  | .PythonEntrySequentialId a => a
  | .FilePosition a _ _ => a
  | .S3ObjectPosition a _ _ => a
  | .Empty => 0

/-- Two offset values are mergeable when they have the same variant and are
either equal or strictly ordered one way by the variant order. -/
def Mergeable (v w : OffsetValue) : Prop :=
  sameVariant v w = true ∧ (v = w ∨ advanceWins v w = true ∨ advanceWins w v = true)

instance (v w : OffsetValue) : Decidable (Mergeable v w) := by
  unfold Mergeable
  infer_instance

/-- The value stored for a key after one merge step: the right value when the
left side has nothing or strictly loses, otherwise the left value. -/
def combineVal (e : Option OffsetValue) (v : OffsetValue) : OffsetValue :=
  match e with
  | none => v
  | some e0 => if advanceWins e0 v then v else e0

/-- Typed values (engine::Value, reconstructed from its uses in
data_storage.rs). Only the variants the connector core manipulates are kept;
the Real payload of sqlite floats is carried opaquely since no arithmetic is
ever performed on it here. -/
inductive Value where
  | NoneV : Value
  | Bool (b : Bool) : Value
  | Int (i : Int) : Value
  | Float (opaquePayload : Int) : Value
  | String (s : String) : Value
  | Bytes (b : List Nat) : Value
deriving DecidableEq

/-- ValuesMap: mapping from field name to value. The source stores a HashMap;
the embedding uses the association list in construction order (the readers
always build these maps in a fixed column order, so list equality coincides
with map equality in every comparison the source performs). -/
def ValuesMap := List (String × Value)
deriving DecidableEq

/-- Generic association-list lookup (HashMap::get). -/
def alistGet {κ ν : Type} [DecidableEq κ] : List (κ × ν) → κ → Option ν
  | [], _ => none
  | (k0, v0) :: rest, k => if k0 = k then some v0 else alistGet rest k

/-- Generic association-list store (HashMap::insert as replace-or-append). -/
def alistPut {κ ν : Type} [DecidableEq κ] : List (κ × ν) → κ → ν → List (κ × ν)
  | [], k, v => [(k, v)]
  | (k0, v0) :: rest, k, v =>
    if k0 = k then (k0, v) :: rest else (k0, v0) :: alistPut rest k v

/-- Generic association-list removal (HashMap::remove). -/
def alistRemove {κ ν : Type} [DecidableEq κ] : List (κ × ν) → κ → List (κ × ν)
  | [], _ => []
  | (k0, v0) :: rest, k =>
    if k0 = k then alistRemove rest k else (k0, v0) :: alistRemove rest k

/-- Modelled from the spec: SourceMetadata (connectors::metadata, not under
src/) as surfaced by the filesystem scanner; we keep the path and the
modified-at timestamp in unix seconds, the only fields data_storage.rs reads
(modified_at can be unresolvable). -/
structure SourceMetadata where
  path : String
  modified_at : Option Nat
deriving DecidableEq

/-- Reader payload contexts (ReaderContext in data_storage.rs). -/
inductive ReaderContext where
  | RawBytes (event : DataEventType) (bytes : List Nat) : ReaderContext
  | TokenizedEntries (event : DataEventType) (entries : List String) : ReaderContext
  | KeyValue (key : Option (List Nat)) (value : Option (List Nat)) : ReaderContext
  | Diff (event : DataEventType) (key : Option (List Value)) (values : ValuesMap) : ReaderContext
deriving DecidableEq

/-- Read results (ReadResult in data_storage.rs). -/
inductive ReadResult where
  | Finished : ReadResult
  | NewSource (metadata : Option SourceMetadata) : ReadResult
  | FinishedSource (commit_allowed : Bool) : ReadResult
  | Data (context : ReaderContext) (offset : Offset) : ReadResult
deriving DecidableEq

/-- Kafka messages as delivered by the consumer: topic, partition, offset and
the optional key and payload byte strings. -/
structure KafkaMessage where
  topic : String
  partition : Int
  offset : Int
  key : Option (List Nat)
  payload : Option (List Nat)
deriving DecidableEq

/-- KafkaReader state: the wrapped topic and the lazy-seek positions map from
partition to the last persisted offset. -/
structure KafkaReader where
  topic : String
  positions_for_seek : List (Int × Int)
deriving DecidableEq

/-- A consumer-side seek issued during read (consumer.seek(topic, partition,
Offset(target))). -/
structure SeekCall where
  topic : String
  partition : Int
  target : Int
deriving DecidableEq

/-- KafkaReader::read. The consumer is modelled as the list of messages it
will deliver, in order; the call polls until a message survives the lazy-seek
filter. It returns the consumer-side seeks issued for the discarded messages
and, unless the stream runs dry (the real call would block forever), the
emitted Data result, the reader state after the call and the undelivered
suffix. -/
def kafkaRead (r : KafkaReader) : List KafkaMessage →
    List SeekCall × Option (ReadResult × KafkaReader × List KafkaMessage)
  | [] => ([], none)
  | msg :: rest =>
    match alistGet r.positions_for_seek msg.partition with
    | some last_read_offset =>
      if last_read_offset ≥ msg.offset then
        let out := kafkaRead r rest
        (⟨msg.topic, msg.partition, last_read_offset + 1⟩ :: out.1, out.2)
      else
        ([],
          some
            (ReadResult.Data (ReaderContext.KeyValue msg.key msg.payload)
              (OffsetKey.Kafka r.topic msg.partition, OffsetValue.KafkaOffset msg.offset),
              { r with positions_for_seek := alistRemove r.positions_for_seek msg.partition },
              rest))
    | none =>
      ([],
        some
          (ReadResult.Data (ReaderContext.KeyValue msg.key msg.payload)
            (OffsetKey.Kafka r.topic msg.partition, OffsetValue.KafkaOffset msg.offset),
            r, rest))

/-- KafkaReader::seek, the lazy variant: store each KafkaOffset entry of the
frontier whose key names the wrapped topic into positions_for_seek; nothing is
sent to the consumer. -/
def kafkaSeek (r : KafkaReader) (frontier : OffsetAntichain) : KafkaReader :=
  frontier.foldl
    (fun acc kv =>
      match kv.2 with
      | OffsetValue.KafkaOffset position =>
        match kv.1 with
        | OffsetKey.Kafka topic part =>
          if acc.topic = topic then
            { acc with positions_for_seek := alistPut acc.positions_for_seek part position }
          else acc
        | _ => acc
      | _ => acc)
    r

/-- Connector modes (ConnectorMode in data_storage.rs). -/
inductive ConnectorMode where
  | Static : ConnectorMode
  | Streaming : ConnectorMode
deriving DecidableEq

/-- ConnectorMode::is_polling_enabled. -/
def ConnectorMode.is_polling_enabled : ConnectorMode → Bool
  | .Static => false
  | .Streaming => true

/-- ConnectorMode::are_deletions_enabled. -/
def ConnectorMode.are_deletions_enabled : ConnectorMode → Bool
  | .Static => false
  | .Streaming => true

/-- A regular file on disk: its modification time in unix seconds (none models
a metadata record whose modified() call fails) and its byte content. The
embedding works at second granularity, the unit the scanner stores in
known_files. -/
structure FileInfo where
  mtime : Option Nat
  content : List Nat
deriving DecidableEq

/-- The filesystem as the scanner observes it during one call: the regular
files currently matched by the glob (metadata lookup of an absent path reports
NotFound), the cache directory contents keyed by cached path, and the current
unix timestamp. Lookups try the files table first and the cache second. -/
structure World where
  files : List (String × FileInfo)
  cache : List (String × List Nat)
  now : Nat
deriving DecidableEq

/-- Errors surfaced by the embedded readers: io for std::io errors propagated
with the question-mark operator, panic for expect/unwrap failures, and
pyValueError for the PyValueError raised by the external-subject reader. -/
inductive ModelError where
  | ioError : ModelError
  | panic : ModelError
  | pyValueError : ModelError
deriving DecidableEq

/-- The ok projection of an Except result. -/
def exceptOk? {α : Type} : Except ModelError α → Option α
  | .ok a => some a
  | .error _ => none

deriving instance DecidableEq for Except

/-- PosixScannerAction in data_storage.rs. -/
inductive PosixScannerAction where
  | Read (path : String) : PosixScannerAction
  | Delete (path : String) : PosixScannerAction
deriving DecidableEq

/-- FilesystemScanner state (data_storage.rs). The glob pattern is abstracted
away: matching_file_paths() is modelled as the files table of the World. -/
structure FilesystemScanner where
  streaming_mode : ConnectorMode
  cache_directory_path : Option String
  known_files : List (String × Nat)
  current_action : Option PosixScannerAction
  cached_modify_times : List (String × Option Nat)
  next_file_for_insertion : Option String
  cached_metadata : List (String × Option SourceMetadata)
deriving DecidableEq

/-- Modelled from the spec: the 128-bit xxh3 digest of a byte string
(xxhash_rust crate, not part of this repository). The spec fixes only that a
128-bit hash of the path bytes is used; the embedding takes a concrete
stand-in folding the bytes into the range below 2 to the 128. -/
def xxh3_digest128 (bytes : List Nat) : Nat :=
  bytes.foldl (fun acc b => (acc * 257 + b) % 2 ^ 128) 0

/-- Byte representation of a path as fed to the hasher
(OsStr::as_encoded_bytes); for the paths considered here this is the UTF-8
byte sequence, embedded as the code points of the string. -/
def pathBytes (p : String) : List Nat :=
  p.data.map Char.toNat

/-- FilesystemScanner::cached_file_path: join the cache directory with the
Display rendering of the 128-bit digest of the path bytes. -/
def cached_file_path (s : FilesystemScanner) (path : String) : Option String :=
  s.cache_directory_path.map fun root_path =>
    root_path ++ "/" ++ Nat.repr (xxh3_digest128 (pathBytes path))

/-- Hexadecimal rendering of a natural number, written for comparison with the
claim that cache filenames are the hex rendering of the digest. -/
def hexRender (n : Nat) : String :=
  (Nat.toDigits 16 n).asString

/-- FilesystemScanner::has_planned_insertion. -/
def has_planned_insertion (s : FilesystemScanner) : Bool :=
  s.next_file_for_insertion.isSome

/-- FilesystemScanner::is_polling_enabled. -/
def is_polling_enabled (s : FilesystemScanner) : Bool :=
  s.streaming_mode.is_polling_enabled

/-- FilesystemScanner::data_event_type: Insert while reading, Delete while
deleting. -/
def data_event_type (s : FilesystemScanner) : Option DataEventType :=
  s.current_action.map fun current_action =>
    match current_action with
    | .Read _ => DataEventType.Insert
    | .Delete _ => DataEventType.Delete

/-- FilesystemScanner::current_file: the path whose bytes are read — the
original file for a read action, the cached copy for a deletion. -/
def current_file (s : FilesystemScanner) : Option String :=
  match s.current_action with
  | some (.Read path) => some path
  | some (.Delete path) => cached_file_path s path
  | none => none

/-- FilesystemScanner::current_offset_file: the original path of the file
being processed, as used in emitted offsets. -/
def current_offset_file (s : FilesystemScanner) : Option String :=
  match s.current_action with
  | some (.Read path) => some path
  | some (.Delete path) => some path
  | none => none

/-- FilesystemScanner::modify_time: with deletions enabled, always consult the
filesystem; otherwise memoize the first answer in cached_modify_times. -/
def modify_time (w : World) (s : FilesystemScanner) (entry : String) :
    Option Nat × FilesystemScanner :=
  if s.streaming_mode.are_deletions_enabled then
    ((alistGet w.files entry).bind FileInfo.mtime, s)
  else
    match alistGet s.cached_modify_times entry with
    | some cached => (cached, s)
    | none =>
      let fresh := (alistGet w.files entry).bind FileInfo.mtime
      (fresh, { s with cached_modify_times := alistPut s.cached_modify_times entry fresh })

/-- Lexicographic strict order on char lists: the byte order Rust uses to
compare paths (Ord on OsStr), embedded on code points. -/
def charListLt : List Char → List Char → Bool
  | _, [] => false
  | [], _ :: _ => true
  | a :: as, b :: bs => decide (a < b) || (decide (a = b) && charListLt as bs)

/-- Strict path order (Ord on PathBuf). -/
def strLt (a b : String) : Bool :=
  charListLt a.data b.data

/-- Non-strict path order. -/
def strLe (a b : String) : Bool :=
  strLt a b || decide (a = b)

/-- Strict lexicographic order on (mtime, path) pairs, the Rust tuple order
used for insertion selection and seek. -/
def mtimePathLt (m1 : Nat) (p1 : String) (m2 : Nat) (p2 : String) : Bool :=
  decide (m1 < m2) || (decide (m1 = m2) && strLt p1 p2)

/-- Non-strict lexicographic order on (mtime, path) pairs. -/
def mtimePathLe (m1 : Nat) (p1 : String) (m2 : Nat) (p2 : String) : Bool :=
  decide (m1 < m2) || (decide (m1 = m2) && strLe p1 p2)

/-- One step of the known-files rebuild in FilesystemScanner::seek_to_file:
resolve the entry mtime through modify_time (threading its memo) and record
the entry when (mtime, path) is at most (target mtime, target path)
lexicographically. -/
def seekStep (w : World) (target_modify_time : Nat) (seek_file_path : String)
    (acc : FilesystemScanner) (entry : String × FileInfo) : FilesystemScanner :=
  let mtAcc := modify_time w acc entry.1
  match mtAcc.1 with
  | none => mtAcc.2
  | some m =>
    if mtimePathLe m entry.1 target_modify_time seek_file_path then
      { mtAcc.2 with known_files := alistPut mtAcc.2.known_files entry.1 m }
    else mtAcc.2

/-- FilesystemScanner::seek_to_file: clear known_files; on NotFound for the
target, warn and return with the cleared map; otherwise take the target mtime
t and record every matching file with resolvable mtime m and (m, path) at most
(t, target) lexicographically, then mark the target as the current read
action. An unresolvable mtime on the target propagates as an io error. -/
def seek_to_file (w : World) (s : FilesystemScanner) (seek_file_path : String) :
    Except ModelError FilesystemScanner :=
  let s0 := { s with known_files := ([] : List (String × Nat)) }
  match alistGet w.files seek_file_path with
  | none => Except.ok s0
  | some info =>
    match info.mtime with
    | none => Except.error ModelError.ioError
    | some target_modify_time =>
      let s1 := w.files.foldl (seekStep w target_modify_time seek_file_path) s0
      Except.ok { s1 with current_action := some (.Read seek_file_path) }

/-- The needs_deletion test of FilesystemScanner::next_deletion_entry: a known
file needs deletion when its metadata lookup reports NotFound or its current
mtime in unix seconds differs from the stored one; an unresolvable mtime keeps
the file. -/
def needs_deletion (w : World) (modified_at : Nat) (path : String) : Bool :=
  match alistGet w.files path with
  | none => true
  | some info =>
    match info.mtime with
    | some modified_at_new => decide (modified_at_new ≠ modified_at)
    | none => false

/-- One step of the candidate-selection fold in next_deletion_entry: keep the
previous candidate unless the new path needs deletion and is strictly smaller. -/
def delStep (w : World) (path_for_deletion : Option String) (entry : String × Nat) :
    Option String :=
  if needs_deletion w entry.2 entry.1 then
    match path_for_deletion with
    | none => some entry.1
    | some other_path => if strLt entry.1 other_path then some entry.1 else some other_path
  else path_for_deletion

/-- The path selected for deletion by next_deletion_entry, obtained by folding
delStep over known_files. -/
def deletion_candidate (w : World) (s : FilesystemScanner) : Option String :=
  s.known_files.foldl (delStep w) none

/-- FilesystemScanner::next_deletion_entry: pick the deletion candidate, pull
its cached metadata (panicking on inconsistency), drop it from known_files and
cached_metadata, mark the Delete action and, when the file still exists on
disk, schedule its reinsertion; surface NewSource with the old metadata. -/
def next_deletion_entry (w : World) (s : FilesystemScanner) :
    Except ModelError (Option ReadResult × FilesystemScanner) :=
  match deletion_candidate w s with
  | none => Except.ok (none, s)
  | some path =>
    match alistGet s.cached_metadata path with
    | none => Except.error ModelError.panic
    | some old_metadata =>
      Except.ok (some (ReadResult.NewSource old_metadata),
        { s with
          cached_metadata := alistRemove s.cached_metadata path,
          known_files := alistRemove s.known_files path,
          current_action := some (.Delete path),
          next_file_for_insertion :=
            if (alistGet w.files path).isSome then some path
            else s.next_file_for_insertion })

/-- FilesystemScanner::initiate_file_insertion: read the fresh metadata (io
error when the file vanished), record it in cached_metadata and known_files
(falling back to the current timestamp when the mtime is unresolvable), copy
the content into the cache when one is configured, and mark the Read action. -/
def initiate_file_insertion (w : World) (s : FilesystemScanner) (new_file_name : String) :
    Except ModelError (ReadResult × FilesystemScanner × World) :=
  match alistGet w.files new_file_name with
  | none => Except.error ModelError.ioError
  | some info =>
    let new_file_meta : SourceMetadata := ⟨new_file_name, info.mtime⟩
    let s1 := { s with
      cached_metadata := alistPut s.cached_metadata new_file_name (some new_file_meta),
      known_files := alistPut s.known_files new_file_name (info.mtime.getD w.now),
      current_action := some (PosixScannerAction.Read new_file_name) }
    match cached_file_path s1 new_file_name with
    | some cached_path =>
      Except.ok (ReadResult.NewSource (some new_file_meta), s1,
        { w with cache := alistPut w.cache cached_path info.content })
    | none =>
      Except.ok (ReadResult.NewSource (some new_file_meta), s1, w)

/-- One step of the candidate-selection fold in next_insertion_entry: skip
known files, resolve the mtime through modify_time (threading its memo), and
keep the entry minimizing (mtime, path) lexicographically. -/
def insStep (w : World) (acc : Option (String × Nat) × FilesystemScanner)
    (entry : String × FileInfo) : Option (String × Nat) × FilesystemScanner :=
  if (alistGet acc.2.known_files entry.1).isSome then acc
  else
    let mtAcc := modify_time w acc.2 entry.1
    match mtAcc.1 with
    | none => (acc.1, mtAcc.2)
    | some modify_t =>
      match acc.1 with
      | some sel =>
        if mtimePathLt modify_t entry.1 sel.2 sel.1 then (some (entry.1, modify_t), mtAcc.2)
        else (sel, mtAcc.2)
      | none => (some (entry.1, modify_t), mtAcc.2)

/-- FilesystemScanner::next_insertion_entry: select the unknown matching file
minimizing (mtime, path) and initiate its insertion. -/
def next_insertion_entry (w : World) (s : FilesystemScanner) :
    Except ModelError (Option ReadResult × FilesystemScanner × World) :=
  let selAcc := w.files.foldl (insStep w) (none, s)
  match selAcc.1 with
  | some sel =>
    (initiate_file_insertion w selAcc.2 sel.1).map fun rsw => (some rsw.1, rsw.2.1, rsw.2.2)
  | none => Except.ok (none, selAcc.2, w)

/-- The finalization step opening FilesystemScanner::next_action_determined:
current_action is always taken; when it was a deletion, the cached copy is
removed (panicking when no cache is configured, io error when the copy is
missing). -/
def finalize_action (w : World) (s : FilesystemScanner) :
    Except ModelError (FilesystemScanner × World) :=
  match s.current_action with
  | some (PosixScannerAction.Delete path) =>
    let s2 := { s with current_action := none }
    match cached_file_path s2 path with
    | none => Except.error ModelError.panic
    | some cached_path =>
      if (alistGet w.cache cached_path).isSome then
        Except.ok (s2, { w with cache := alistRemove w.cache cached_path })
      else Except.error ModelError.ioError
  | _ => Except.ok ({ s with current_action := none }, w)

/-- FilesystemScanner::next_action_determined continued: after finalization,
run the scheduled reinsertion if any (collapsing to FinishedSource with
commits allowed when the file was deleted again), then look for deletions when
they are enabled, then for insertions. -/
def next_action_determined (w : World) (s : FilesystemScanner) :
    Except ModelError (Option ReadResult × FilesystemScanner × World) :=
  (finalize_action w s).bind fun sw =>
    let s := sw.1
    let w := sw.2
    match s.next_file_for_insertion with
    | some next_file =>
      let s2 := { s with next_file_for_insertion := none }
      if (alistGet w.files next_file).isSome then
        (initiate_file_insertion w s2 next_file).map fun rsw => (some rsw.1, rsw.2.1, rsw.2.2)
      else
        Except.ok (some (ReadResult.FinishedSource true), s2, w)
    | none =>
      if s.streaming_mode.are_deletions_enabled then
        match next_deletion_entry w s with
        | Except.error e => Except.error e
        | Except.ok (some r, s2) => Except.ok (some r, s2, w)
        | Except.ok (none, s2) => next_insertion_entry w s2
      else next_insertion_entry w s

/-- ReadMethod in data_storage.rs. -/
inductive ReadMethod where
  | ByLine : ReadMethod
  | Full : ReadMethod
deriving DecidableEq

/-- A buffered byte reader over an already-open stream: the full content and
the current position. -/
structure ByteReader where
  content : List Nat
  pos : Nat
deriving DecidableEq

/-- BufRead::read_until for the newline delimiter: the bytes up to and
including the first 10, or everything when no newline remains. -/
def takeLine : List Nat → List Nat
  | [] => []
  | b :: rest => if b = 10 then [b] else b :: takeLine rest

/-- ReadMethod::read_next_bytes: ByLine reads one newline-terminated chunk,
Full reads to the end; returns the number of bytes read, the buffer and the
advanced reader. -/
def read_next_bytes (m : ReadMethod) (r : ByteReader) : Nat × List Nat × ByteReader :=
  match m with
  | .ByLine =>
    let line := takeLine (r.content.drop r.pos)
    (line.length, line, { r with pos := r.pos + line.length })
  | .Full =>
    let rest := r.content.drop r.pos
    (rest.length, rest, { r with pos := r.pos + rest.length })

/-- Open a path for reading: regular files first, cached copies second. -/
def openFile (w : World) (path : String) : Except ModelError ByteReader :=
  match alistGet w.files path with
  | some info => Except.ok ⟨info.content, 0⟩
  | none =>
    match alistGet w.cache path with
    | some content => Except.ok ⟨content, 0⟩
    | none => Except.error ModelError.ioError

/-- FilesystemReader state (data_storage.rs). -/
structure FilesystemReader where
  read_method : ReadMethod
  reader : Option ByteReader
  filesystem_scanner : FilesystemScanner
  total_entries_read : Nat
  deferred_read_result : Option ReadResult
deriving DecidableEq

/-- FilesystemReader::read. A deferred result is returned first. With an open
reader, a chunk is read: a nonempty chunk (or any chunk under Full) is emitted
as Data with offset FilePosition(total_entries_read, original path, stream
position), Full additionally deferring FinishedSource with commits allowed iff
no reinsertion is planned; an empty ByLine chunk closes the file and emits
that FinishedSource directly. With no reader the scanner determines the next
action, whose file is opened; when nothing is available the call returns
Finished in static mode and blocks polling in streaming mode, modelled as a
none result. -/
def fsRead (w : World) (fr : FilesystemReader) :
    Except ModelError (Option ReadResult × FilesystemReader × World) :=
  match fr.deferred_read_result with
  | some deferred => Except.ok (some deferred, { fr with deferred_read_result := none }, w)
  | none =>
    match fr.reader with
    | some reader0 =>
      let out := read_next_bytes fr.read_method reader0
      let len := out.1
      let line := out.2.1
      let reader := out.2.2
      if len > 0 ∨ fr.read_method = ReadMethod.Full then
        match current_offset_file fr.filesystem_scanner with
        | none => Except.error ModelError.panic
        | some path =>
          match data_event_type fr.filesystem_scanner with
          | none => Except.error ModelError.panic
          | some ev =>
            let total := fr.total_entries_read + 1
            let offset : Offset := (OffsetKey.Empty, OffsetValue.FilePosition total path reader.pos)
            if fr.read_method = ReadMethod.Full then
              Except.ok (some (ReadResult.Data (ReaderContext.RawBytes ev line) offset),
                { fr with
                  total_entries_read := total,
                  deferred_read_result := some (ReadResult.FinishedSource
                    (!has_planned_insertion fr.filesystem_scanner)),
                  reader := none }, w)
            else
              Except.ok (some (ReadResult.Data (ReaderContext.RawBytes ev line) offset),
                { fr with total_entries_read := total, reader := some reader }, w)
      else
        Except.ok (some (ReadResult.FinishedSource
            (!has_planned_insertion fr.filesystem_scanner)),
          { fr with reader := none }, w)
    | none =>
      match next_action_determined w fr.filesystem_scanner with
      | Except.error e => Except.error e
      | Except.ok (some next_read_result, s, w2) =>
        match current_file s with
        | some selected_file =>
          (openFile w2 selected_file).map fun br =>
            (some next_read_result,
              { fr with filesystem_scanner := s, reader := some br }, w2)
        | none =>
          Except.ok (some next_read_result, { fr with filesystem_scanner := s }, w2)
      | Except.ok (none, s, w2) =>
        if is_polling_enabled s then
          Except.ok (none, { fr with filesystem_scanner := s }, w2)
        else
          Except.ok (some ReadResult.Finished, { fr with filesystem_scanner := s }, w2)

/-- FilesystemReader::seek: decode a FilePosition from the Empty key of the
frontier (anything else is only logged), run the scanner seek, open the file
at the stored byte offset and restore total_entries_read. -/
def fsSeek (w : World) (fr : FilesystemReader) (frontier : OffsetAntichain) :
    Except ModelError FilesystemReader :=
  match getOffset frontier OffsetKey.Empty with
  | some (OffsetValue.FilePosition total_entries_read path bytes_offset) =>
    (seek_to_file w fr.filesystem_scanner path).bind fun s =>
      match alistGet w.files path with
      | none => Except.error ModelError.ioError
      | some info =>
        Except.ok { fr with
          filesystem_scanner := s,
          reader := some ⟨info.content, bytes_offset⟩,
          total_entries_read := total_entries_read }
  | _ => Except.ok fr

/-- Decimal rendering of a natural number, the Display format of Rust
integers, written independently for comparison with cached_file_path. -/
def decimalRender (n : Nat) : String :=
  (Nat.toDigits 10 n).asString

/-- A reader state where any deferred FinishedSource agrees with the planned
reinsertion flag of the scanner. -/
def DeferredConsistent (fr : FilesystemReader) : Prop :=
  ∀ c, fr.deferred_read_result = some (ReadResult.FinishedSource c) →
    c = !(has_planned_insertion fr.filesystem_scanner)

/-- A delimited file as its parser sees it: the tokenized records in order,
each paired with the byte position of the parser cursor after reading it. -/
def CsvFile := List (List String × Nat)
deriving DecidableEq

/-- An open csv::Reader: the records still to be read. -/
structure CsvHandle where
  records : List (List String × Nat)
deriving DecidableEq

/-- csv::Reader::read_record: the next record and the advanced handle, or
none at end of input. -/
def csvReadRecord (h : CsvHandle) : Option ((List String × Nat) × CsvHandle) :=
  match h.records with
  | [] => none
  | r :: rest => some (r, ⟨rest⟩)

/-- csv::Reader::seek to a byte position: the remaining records are those
ending after that position. -/
def csvSeekHandle (file : CsvFile) (b : Nat) : CsvHandle :=
  ⟨file.dropWhile fun r => decide (r.2 ≤ b)⟩

/-- CsvFilesystemReader state (data_storage.rs). -/
structure CsvFilesystemReader where
  reader : Option CsvHandle
  filesystem_scanner : FilesystemScanner
  total_entries_read : Nat
  deferred_read_result : Option ReadResult
deriving DecidableEq

/-- CsvFilesystemReader::seek: decode a FilePosition from the Empty key, run
the scanner seek, open the file with a fresh parser; when bytes_offset is
positive, read the first record of the file as the header and defer it as a
Data event tagged with the decoded offset value unchanged; finally position
the parser at bytes_offset and restore total_entries_read. The delimited
content of the disk is passed as a map from path to parsed records. -/
def csvFsSeek (w : World) (cw : List (String × CsvFile)) (r : CsvFilesystemReader)
    (frontier : OffsetAntichain) : Except ModelError CsvFilesystemReader :=
  match getOffset frontier OffsetKey.Empty with
  | some (OffsetValue.FilePosition total_entries_read path bytes_offset) =>
    (seek_to_file w r.filesystem_scanner path).bind fun s =>
      match alistGet cw path with
      | none => Except.error ModelError.ioError
      | some file =>
        if 0 < bytes_offset then
          match file with
          | [] =>
            Except.ok { r with
              filesystem_scanner := s,
              total_entries_read := total_entries_read,
              reader := some (csvSeekHandle file bytes_offset) }
          | header_record :: _ =>
            match data_event_type s with
            | none => Except.error ModelError.panic
            | some ev =>
              Except.ok { r with
                filesystem_scanner := s,
                total_entries_read := total_entries_read,
                reader := some (csvSeekHandle file bytes_offset),
                deferred_read_result := some (ReadResult.Data
                  (ReaderContext.TokenizedEntries ev header_record.1)
                  (OffsetKey.Empty,
                    OffsetValue.FilePosition total_entries_read path bytes_offset)) }
        else
          Except.ok { r with
            filesystem_scanner := s,
            total_entries_read := total_entries_read,
            reader := some (csvSeekHandle file bytes_offset) }
  | _ => Except.ok r

/-- CsvFilesystemReader::read: a deferred result first; with an open parser, a
record is emitted as tokenized Data with offset FilePosition(total, original
path, cursor); on exhaustion the scanner determines the next action (keeping
the old parser when its file is unavailable), and only when nothing follows is
FinishedSource emitted with commits allowed iff no reinsertion is planned;
with no parser the next action is opened; otherwise static mode finishes and
streaming mode blocks polling (a none result). -/
def csvFsRead (w : World) (cw : List (String × CsvFile)) (r : CsvFilesystemReader) :
    Except ModelError (Option ReadResult × CsvFilesystemReader × World) :=
  match r.deferred_read_result with
  | some deferred => Except.ok (some deferred, { r with deferred_read_result := none }, w)
  | none =>
    match r.reader with
    | some handle =>
      match csvReadRecord handle with
      | some (rec, handle2) =>
        match current_offset_file r.filesystem_scanner, data_event_type r.filesystem_scanner with
        | some path, some ev =>
          Except.ok (some (ReadResult.Data (ReaderContext.TokenizedEntries ev rec.1)
            (OffsetKey.Empty,
              OffsetValue.FilePosition (r.total_entries_read + 1) path rec.2)),
            { r with total_entries_read := r.total_entries_read + 1,
                     reader := some handle2 }, w)
        | _, _ => Except.error ModelError.panic
      | none =>
        match next_action_determined w r.filesystem_scanner with
        | Except.error e => Except.error e
        | Except.ok (some next_read_result, s, w2) =>
          match current_file s with
          | some selected_file =>
            match alistGet cw selected_file with
            | none => Except.error ModelError.ioError
            | some file =>
              Except.ok (some next_read_result,
                { r with filesystem_scanner := s, reader := some ⟨file⟩ }, w2)
          | none =>
            Except.ok (some next_read_result, { r with filesystem_scanner := s }, w2)
        | Except.ok (none, s, w2) =>
          Except.ok (some (ReadResult.FinishedSource (!has_planned_insertion s)),
            { r with filesystem_scanner := s, reader := none }, w2)
    | none =>
      match next_action_determined w r.filesystem_scanner with
      | Except.error e => Except.error e
      | Except.ok (some next_read_result, s, w2) =>
        match current_file s with
        | some selected_file =>
          match alistGet cw selected_file with
          | none => Except.error ModelError.ioError
          | some file =>
            Except.ok (some next_read_result,
              { r with filesystem_scanner := s, reader := some ⟨file⟩ }, w2)
        | none =>
          Except.ok (some next_read_result, { r with filesystem_scanner := s }, w2)
      | Except.ok (none, s, w2) =>
        if is_polling_enabled s then
          Except.ok (none, { r with filesystem_scanner := s }, w2)
        else
          Except.ok (some ReadResult.Finished, { r with filesystem_scanner := s }, w2)

/-- One entry of an S3 listing: the object key and its parsed last-modified
timestamp (none models an unparsable RFC3339 string, which selection and seek
skip). -/
structure S3Object where
  key : String
  last_modified : Option Nat
deriving DecidableEq

/-- S3Scanner state (data_storage.rs): the set of keys already processed and
the key currently streamed, when any. -/
structure S3Scanner where
  processed_objects : List String
  current_object_path : Option String
deriving DecidableEq

/-- S3Scanner::seek_to_object: clear processed_objects; find the threshold
last-modified of the target key from one listing pass (the last parseable
match wins); when found, mark every key with (last_modified, key) strictly
below (threshold, target) as processed together with the target itself;
otherwise leave the set empty. -/
def seek_to_object (listing : List S3Object) (sc : S3Scanner) (path : String) : S3Scanner :=
  let threshold := listing.foldl
    (fun acc obj =>
      if obj.key = path then
        match obj.last_modified with
        | some lm => some lm
        | none => acc
      else acc) none
  match threshold with
  | some t =>
    { sc with processed_objects :=
        ((listing.filter fun obj =>
          match obj.last_modified with
          | some lm => mtimePathLt lm obj.key t path
          | none => false).map S3Object.key) ++ [path] }
  | none => { sc with processed_objects := [] }

/-- S3Scanner::stream_next_object specialised to its selection logic: among
unprocessed keys with parseable timestamps pick the one minimizing
(last_modified, key), mark it processed and make it current; none when the
listing is exhausted. -/
def stream_next_object_key (listing : List S3Object) (sc : S3Scanner) : Option String :=
  let sel := listing.foldl
    (fun acc obj =>
      if sc.processed_objects.contains obj.key then acc
      else
        match obj.last_modified with
        | none => acc
        | some lm =>
          match acc with
          | some selObj =>
            if mtimePathLt lm obj.key selObj.1 selObj.2 then some (lm, obj.key) else acc
          | none => some (lm, obj.key)) none
  sel.map Prod.snd

/-- The csv catch-up loop of S3CsvReader::seek: keep reading records while the
cursor is before the target byte offset. -/
def s3CsvCatchup (target : Nat) : List (List String × Nat) → Nat → CsvHandle
  | [], _ => ⟨[]⟩
  | rec :: rest, current =>
    if current < target then s3CsvCatchup target rest rec.2 else ⟨rec :: rest⟩

/-- S3CsvReader state (data_storage.rs). -/
structure S3CsvReader where
  s3_scanner : S3Scanner
  poll_new_objects : Bool
  csv_reader : Option CsvHandle
  total_entries_read : Nat
  deferred_read_result : Option ReadResult
deriving DecidableEq

/-- S3CsvReader::seek: decode an S3ObjectPosition from the Empty key, run the
scanner seek and start streaming the target object (an object that fails to
download is seen as an empty stream here; its error surfaces later at join).
With a positive bytes_offset, the first record is the header, deferred as a
Data event tagged with the decoded offset value unchanged — an empty object
aborts the rewind leaving the reader unset; then records are skipped until the
cursor reaches bytes_offset and total_entries_read is restored. -/
def s3CsvSeek (listing : List S3Object) (cw : List (String × CsvFile))
    (r : S3CsvReader) (frontier : OffsetAntichain) : Except ModelError S3CsvReader :=
  match getOffset frontier OffsetKey.Empty with
  | some (OffsetValue.S3ObjectPosition total_entries_read path bytes_offset) =>
    let sc := { seek_to_object listing r.s3_scanner path with
      current_object_path := some path }
    let file := (alistGet cw path).getD []
    if 0 < bytes_offset then
      match file with
      | [] => Except.ok { r with s3_scanner := sc }
      | header_record :: rest =>
        Except.ok { r with
          s3_scanner := sc,
          csv_reader := some (s3CsvCatchup bytes_offset rest header_record.2),
          total_entries_read := total_entries_read,
          deferred_read_result := some (ReadResult.Data
            (ReaderContext.TokenizedEntries DataEventType.Insert header_record.1)
            (OffsetKey.Empty,
              OffsetValue.S3ObjectPosition total_entries_read path bytes_offset)) }
    else
      Except.ok { r with
        s3_scanner := sc,
        csv_reader := some (s3CsvCatchup bytes_offset file 0),
        total_entries_read := total_entries_read }
  | _ => Except.ok r

/-- S3CsvReader::read: a deferred result first; with an open parser, a record
is emitted as tokenized Insert Data with offset S3ObjectPosition(total,
current key, cursor); on exhaustion the next object is streamed as NewSource;
with nothing left, polling mode blocks (a none result) and otherwise the
stream is Finished. -/
def s3CsvRead (listing : List S3Object) (cw : List (String × CsvFile)) (r : S3CsvReader) :
    Except ModelError (Option ReadResult × S3CsvReader) :=
  match r.deferred_read_result with
  | some deferred => Except.ok (some deferred, { r with deferred_read_result := none })
  | none =>
    match r.csv_reader with
    | some handle =>
      match csvReadRecord handle with
      | some (rec, handle2) =>
        match r.s3_scanner.current_object_path with
        | none => Except.error ModelError.panic
        | some path =>
          Except.ok (some (ReadResult.Data
            (ReaderContext.TokenizedEntries DataEventType.Insert rec.1)
            (OffsetKey.Empty,
              OffsetValue.S3ObjectPosition (r.total_entries_read + 1) path rec.2)),
            { r with total_entries_read := r.total_entries_read + 1,
                     csv_reader := some handle2 })
      | none =>
        match stream_next_object_key listing r.s3_scanner with
        | some key =>
          Except.ok (some (ReadResult.NewSource none),
            { r with
              s3_scanner := ⟨r.s3_scanner.processed_objects ++ [key], some key⟩,
              csv_reader := some ⟨(alistGet cw key).getD []⟩ })
        | none =>
          if r.poll_new_objects then Except.ok (none, r)
          else Except.ok (some ReadResult.Finished, r)
    | none =>
      match stream_next_object_key listing r.s3_scanner with
      | some key =>
        Except.ok (some (ReadResult.NewSource none),
          { r with
            s3_scanner := ⟨r.s3_scanner.processed_objects ++ [key], some key⟩,
            csv_reader := some ⟨(alistGet cw key).getD []⟩ })
      | none =>
        if r.poll_new_objects then Except.ok (none, r)
        else Except.ok (some ReadResult.Finished, r)

/-- S3GenericReader state (data_storage.rs). -/
structure S3GenericReader where
  s3_scanner : S3Scanner
  poll_new_objects : Bool
  read_method : ReadMethod
  reader : Option ByteReader
  total_entries_read : Nat
  current_bytes_read : Nat
  deferred_read_result : Option ReadResult
deriving DecidableEq

/-- S3GenericReader::read: a deferred result first; with an open stream, a
chunk is read and a nonempty chunk (or any chunk under Full) is emitted as
Insert Data with offset S3ObjectPosition(total, current key, bytes read so
far), Full additionally deferring FinishedSource with commits allowed; an
empty ByLine chunk streams the next object as NewSource; with nothing left,
polling mode blocks (a none result) and otherwise the stream is Finished. -/
def s3GenRead (listing : List S3Object) (bw : List (String × List Nat))
    (r : S3GenericReader) : Except ModelError (Option ReadResult × S3GenericReader) :=
  match r.deferred_read_result with
  | some deferred => Except.ok (some deferred, { r with deferred_read_result := none })
  | none =>
    match r.reader with
    | some reader0 =>
      let out := read_next_bytes r.read_method reader0
      if out.1 > 0 ∨ r.read_method = ReadMethod.Full then
        match r.s3_scanner.current_object_path with
        | none => Except.error ModelError.panic
        | some path =>
          let total := r.total_entries_read + 1
          let bytesRead := r.current_bytes_read + out.1
          let offset : Offset :=
            (OffsetKey.Empty, OffsetValue.S3ObjectPosition total path bytesRead)
          if r.read_method = ReadMethod.Full then
            Except.ok (some (ReadResult.Data (ReaderContext.RawBytes DataEventType.Insert out.2.1)
                offset),
              { r with
                total_entries_read := total, current_bytes_read := bytesRead,
                deferred_read_result := some (ReadResult.FinishedSource true),
                reader := none })
          else
            Except.ok (some (ReadResult.Data (ReaderContext.RawBytes DataEventType.Insert out.2.1)
                offset),
              { r with
                total_entries_read := total, current_bytes_read := bytesRead,
                reader := some out.2.2 })
      else
        match stream_next_object_key listing r.s3_scanner with
        | some key =>
          Except.ok (some (ReadResult.NewSource none),
            { r with
              s3_scanner := ⟨r.s3_scanner.processed_objects ++ [key], some key⟩,
              current_bytes_read := 0,
              reader := some ⟨(alistGet bw key).getD [], 0⟩ })
        | none =>
          if r.poll_new_objects then Except.ok (none, r)
          else Except.ok (some ReadResult.Finished, r)
    | none =>
      match stream_next_object_key listing r.s3_scanner with
      | some key =>
        Except.ok (some (ReadResult.NewSource none),
          { r with
            s3_scanner := ⟨r.s3_scanner.processed_objects ++ [key], some key⟩,
            current_bytes_read := 0,
            reader := some ⟨(alistGet bw key).getD [], 0⟩ })
      | none =>
        if r.poll_new_objects then Except.ok (none, r)
        else Except.ok (some ReadResult.Finished, r)

/-- Modelled from the spec: EMPTY_OFFSET (connectors::offset, not under
src/), the offset attached to events of sources without persistent positions
such as the embedded-SQL reader. -/
def EMPTY_OFFSET : Offset := (OffsetKey.Empty, OffsetValue.Empty)

/-- One row of SqliteReader::load_table against the running state: compare the
row to the stored values under its rowid, enqueue a Delete of the old values
followed by an Insert of the new ones when they differ, a single Insert when
the rowid is new, nothing when they are equal; the state is updated to the row
values. -/
def loadRow (st : List (Int × ValuesMap) × List ReadResult) (row : Int × ValuesMap) :
    List (Int × ValuesMap) × List ReadResult :=
  match alistGet st.1 row.1 with
  | some current_values =>
    if current_values ≠ row.2 then
      (alistPut st.1 row.1 row.2,
        st.2 ++
          [ReadResult.Data (ReaderContext.Diff DataEventType.Delete
              (some [Value.Int row.1]) current_values) EMPTY_OFFSET,
            ReadResult.Data (ReaderContext.Diff DataEventType.Insert
              (some [Value.Int row.1]) row.2) EMPTY_OFFSET])
    else st
  | none =>
    (alistPut st.1 row.1 row.2,
      st.2 ++
        [ReadResult.Data (ReaderContext.Diff DataEventType.Insert
            (some [Value.Int row.1]) row.2) EMPTY_OFFSET])

/-- SqliteReader::load_table run from an empty queue: process the table rows
in cursor order against stored_state, then drop every stored rowid that was
not present, enqueueing a Delete with its stored values, and append
FinishedSource with commits allowed when anything was enqueued. Returns the
retained state and the queued results. -/
def loadTable (stored_state : List (Int × ValuesMap)) (rows : List (Int × ValuesMap)) :
    List (Int × ValuesMap) × List ReadResult :=
  let st := rows.foldl loadRow (stored_state, [])
  let present := rows.map Prod.fst
  let queued := st.2 ++
    (st.1.filter fun e => !(present.contains e.1)).map fun e =>
      ReadResult.Data (ReaderContext.Diff DataEventType.Delete
        (some [Value.Int e.1]) e.2) EMPTY_OFFSET
  (st.1.filter fun e => present.contains e.1,
    if queued.isEmpty then queued else queued ++ [ReadResult.FinishedSource true])

/-- The per-row event list the spec describes for the embedded-SQL reload,
written against the initial stored state for comparison with loadTable. -/
def rowEvents (stored_state : List (Int × ValuesMap)) (row : Int × ValuesMap) :
    List ReadResult :=
  match alistGet stored_state row.1 with
  | none =>
    [ReadResult.Data (ReaderContext.Diff DataEventType.Insert
      (some [Value.Int row.1]) row.2) EMPTY_OFFSET]
  | some old =>
    if old = row.2 then []
    else
      [ReadResult.Data (ReaderContext.Diff DataEventType.Delete
          (some [Value.Int row.1]) old) EMPTY_OFFSET,
        ReadResult.Data (ReaderContext.Diff DataEventType.Insert
          (some [Value.Int row.1]) row.2) EMPTY_OFFSET]

/-- The deletions the spec describes for stored rowids missing from the table. -/
def staleEvents (stored_state : List (Int × ValuesMap)) (rows : List (Int × ValuesMap)) :
    List ReadResult :=
  (stored_state.filter fun e => !((rows.map Prod.fst).contains e.1)).map fun e =>
    ReadResult.Data (ReaderContext.Diff DataEventType.Delete
      (some [Value.Int e.1]) e.2) EMPTY_OFFSET

/-- The sentinel value closing an external-subject stream. -/
def FINISH_LITERAL : String := "*FINISH*"

/-- ValuesMap::is_special: the map has exactly one field, named _pw_special,
holding the given string. -/
def isSpecial (vm : ValuesMap) (value : String) : Bool :=
  decide (vm.length = 1) &&
    decide (alistGet vm "_pw_special" = some (Value.String value))

/-- The externally supplied subject of the Python reader: only its
deletions-enabled flag matters to the embedded control flow. -/
structure PythonSubject where
  deletions_enabled : Bool
deriving DecidableEq

/-- PythonReader state (data_storage.rs). -/
structure PythonReader where
  total_entries_read : Nat
  is_initialized : Bool
  is_finished : Bool
deriving DecidableEq

/-- PythonReader::read: start the subject on the first call; once finished,
keep returning Finished. The subject reply (event kind, optional key, field
map) is passed as data. A non-insert event on a subject without deletions
enabled raises PyValueError; the sentinel field map ends the stream;
otherwise the entry counter advances and a Diff is emitted with a
PythonEntrySequentialId offset. -/
def pythonRead (subject : PythonSubject) (r : PythonReader)
    (reply : DataEventType × Option Value × ValuesMap) :
    Except ModelError ReadResult × PythonReader :=
  let r0 := if r.is_initialized then r else { r with is_initialized := true }
  if r0.is_finished then (Except.ok ReadResult.Finished, r0)
  else
    let event := reply.1
    let key := reply.2.1.map fun k => [k]
    let values := reply.2.2
    if event ≠ DataEventType.Insert ∧ subject.deletions_enabled = false then
      (Except.error ModelError.pyValueError, r0)
    else if isSpecial values FINISH_LITERAL then
      (Except.ok ReadResult.Finished, { r0 with is_finished := true })
    else
      (Except.ok (ReadResult.Data (ReaderContext.Diff event key values)
        (OffsetKey.Empty, OffsetValue.PythonEntrySequentialId (r0.total_entries_read + 1))),
        { r0 with total_entries_read := r0.total_entries_read + 1 })

/-- Lookup after an advance: the stored key now maps to the new value and every
other key is untouched. -/
theorem getOffset_advanceOffset (a : OffsetAntichain) (k : OffsetKey) (v : OffsetValue)
    (k2 : OffsetKey) :
    getOffset (advanceOffset a k v) k2 = if k2 = k then some v else getOffset a k2 := by
  induction a with
  | nil =>
    by_cases h : k = k2
    · subst h
      simp [advanceOffset, getOffset]
    · have h' : ¬ (k2 = k) := fun hh => h hh.symm
      simp [advanceOffset, getOffset, h, h']
  | cons hd tl ih =>
    obtain ⟨k0, v0⟩ := hd
    by_cases h0 : k0 = k
    · subst h0
      by_cases h2 : k0 = k2
      · subst h2
        simp [advanceOffset, getOffset]
      · have h2' : ¬ (k2 = k0) := fun hh => h2 hh.symm
        simp [advanceOffset, getOffset, h2, h2']
    · by_cases h2 : k0 = k2
      · subst h2
        simp [advanceOffset, getOffset, h0]
      · simp [advanceOffset, getOffset, h0, h2, ih]

/-- mergeStep is the advance-if-strictly-greater rule expressed through
advanceWins. -/
theorem mergeStep_eq (r : OffsetAntichain) (kv : OffsetKey × OffsetValue) :
    mergeStep r kv =
      match getOffset r kv.1 with
      | none => advanceOffset r kv.1 kv.2
      | some e => if advanceWins e kv.2 then advanceOffset r kv.1 kv.2 else r := by
  obtain ⟨k, v⟩ := kv
  cases hget : getOffset r k with
  | none => simp [mergeStep, hget]
  | some e => cases e <;> cases v <;> simp [mergeStep, hget, advanceWins]

/-- Lookup after one merge step. -/
theorem getOffset_mergeStep (r : OffsetAntichain) (k : OffsetKey) (v : OffsetValue)
    (k2 : OffsetKey) :
    getOffset (mergeStep r (k, v)) k2 =
      if k2 = k then some (combineVal (getOffset r k) v) else getOffset r k2 := by
  rw [mergeStep_eq]
  cases hget : getOffset r k with
  | none =>
    simp [combineVal, getOffset_advanceOffset]
  | some e =>
    by_cases hw : advanceWins e v
    · simp [hw, combineVal, getOffset_advanceOffset]
    · simp only [if_neg hw, combineVal]
      by_cases hk : k2 = k
      · subst hk
        simp [hget]
      · simp [hk]

/-- Keys absent from a frontier have no stored offset. -/
theorem getOffset_eq_none_of_not_mem (a : OffsetAntichain) (k : OffsetKey)
    (h : k ∉ frontierKeys a) : getOffset a k = none := by
  induction a with
  | nil => rfl
  | cons hd tl ih =>
    obtain ⟨k0, v0⟩ := hd
    have hcons : frontierKeys ((k0, v0) :: tl) = k0 :: frontierKeys tl := rfl
    rw [hcons] at h
    have h1 : ¬ (k0 = k) := fun hh => h (by simp [hh])
    have h2 : k ∉ frontierKeys tl := fun hh => h (List.mem_cons_of_mem _ hh)
    simp [getOffset, h1, ih h2]

/-- Pointwise description of merge_two_frontiers: when the right frontier has
no duplicate keys, the merged value at a key combines the two lookups with the
advance-if-strictly-greater rule. -/
theorem getOffset_merge (a b : OffsetAntichain) (hb : (frontierKeys b).Nodup)
    (k : OffsetKey) :
    getOffset (merge_two_frontiers a b) k =
      match getOffset b k with
      | none => getOffset a k
      | some v => some (combineVal (getOffset a k) v) := by
  induction b generalizing a with
  | nil => rfl
  | cons hd tl ih =>
    obtain ⟨k0, v0⟩ := hd
    have hcons : frontierKeys ((k0, v0) :: tl) = k0 :: frontierKeys tl := rfl
    rw [hcons] at hb
    have hk0 : k0 ∉ frontierKeys tl := (List.nodup_cons.mp hb).1
    have htl : (frontierKeys tl).Nodup := (List.nodup_cons.mp hb).2
    have hmerge : merge_two_frontiers a ((k0, v0) :: tl) =
        merge_two_frontiers (mergeStep a (k0, v0)) tl := rfl
    rw [hmerge, ih _ htl]
    by_cases hk : k = k0
    · subst hk
      have hnone : getOffset tl k = none := getOffset_eq_none_of_not_mem tl k hk0
      simp [hnone, getOffset, getOffset_mergeStep]
    · have hk' : ¬ (k0 = k) := fun hh => hk hh.symm
      simp only [getOffset_mergeStep, if_neg hk, getOffset, if_neg hk']

/-- advanceWins is asymmetric: the strict variant comparison cannot hold both
ways. -/
theorem advanceWins_asymm (v w : OffsetValue) (h : advanceWins v w = true) :
    advanceWins w v = false := by
  cases v <;> cases w <;> simp [advanceWins] at h ⊢ <;> omega

/-- A strict win means a strictly larger variant measure. -/
theorem ovalMeasure_lt_of_advanceWins (v w : OffsetValue) (h : advanceWins v w = true) :
    ovalMeasure v < ovalMeasure w := by
  cases v <;> cases w <;> simp [advanceWins] at h <;> simp [ovalMeasure] <;> omega

/-- C3 counterexample: merge_two_frontiers is not commutative for all pairs of
frontiers. With mixed variants on a shared key each order keeps its own left
value, and even for the same variant (FilePosition) with equal
total_entries_read but different payloads the left value is kept, so the two
orders disagree. -/
theorem frontier_merge_not_commutative :
    (getOffset
        (merge_two_frontiers [(OffsetKey.Empty, OffsetValue.KafkaOffset 1)]
          [(OffsetKey.Empty, OffsetValue.PythonEntrySequentialId 1)]) OffsetKey.Empty ≠
      getOffset
        (merge_two_frontiers [(OffsetKey.Empty, OffsetValue.PythonEntrySequentialId 1)]
          [(OffsetKey.Empty, OffsetValue.KafkaOffset 1)]) OffsetKey.Empty) ∧
    (getOffset
        (merge_two_frontiers [(OffsetKey.Empty, OffsetValue.FilePosition 1 "a" 0)]
          [(OffsetKey.Empty, OffsetValue.FilePosition 1 "b" 0)]) OffsetKey.Empty ≠
      getOffset
        (merge_two_frontiers [(OffsetKey.Empty, OffsetValue.FilePosition 1 "b" 0)]
          [(OffsetKey.Empty, OffsetValue.FilePosition 1 "a" 0)]) OffsetKey.Empty) := by
  decide

/-- C3 (amended): when the two frontiers have no duplicate keys and, on every
key stored in both, the two values have the same variant and are equal or
strictly ordered by the variant order, merge_two_frontiers is commutative as a
map, and on every shared key the merged entry is one of the two values and
realizes the maximum of the variant measures (KafkaOffset and
PythonEntrySequentialId by integer order, FilePosition and S3ObjectPosition by
total_entries_read). -/
theorem frontier_merge_comm_max (a b : OffsetAntichain)
    (ha : (frontierKeys a).Nodup) (hb : (frontierKeys b).Nodup)
    (hcompat : ∀ k v w, getOffset a k = some v → getOffset b k = some w → Mergeable v w) :
    (∀ k, getOffset (merge_two_frontiers a b) k = getOffset (merge_two_frontiers b a) k) ∧
    (∀ k v w, getOffset a k = some v → getOffset b k = some w →
      getOffset (merge_two_frontiers a b) k = some (if advanceWins v w then w else v) ∧
      ovalMeasure (if advanceWins v w then w else v) =
        max (ovalMeasure v) (ovalMeasure w)) := by
  constructor
  · intro k
    rw [getOffset_merge a b hb k, getOffset_merge b a ha k]
    cases hav : getOffset a k with
    | none =>
      cases hbv : getOffset b k with
      | none => simp
      | some w => simp [combineVal]
    | some v =>
      cases hbv : getOffset b k with
      | none => simp [combineVal]
      | some w =>
        have hm := hcompat k v w hav hbv
        rcases hm.2 with heq | hvw | hwv
        · subst heq
          by_cases h : advanceWins v v <;> simp [combineVal, h]
        · have h2 := advanceWins_asymm v w hvw
          simp [combineVal, hvw, h2]
        · have h2 := advanceWins_asymm w v hwv
          simp [combineVal, hwv, h2]
  · intro k v w hav hbv
    have hm := hcompat k v w hav hbv
    constructor
    · rw [getOffset_merge a b hb k, hbv, hav]
      simp [combineVal]
    · rcases hm.2 with heq | hvw | hwv
      · subst heq
        by_cases h : advanceWins v v <;> simp [h]
      · have hlt := ovalMeasure_lt_of_advanceWins v w hvw
        simp [hvw]
        omega
      · have hlt := ovalMeasure_lt_of_advanceWins w v hwv
        have h2 := advanceWins_asymm w v hwv
        simp [h2]
        omega

/-- Witness for frontier_merge_comm_max at two concrete one-entry Kafka
frontiers. -/
theorem frontier_merge_comm_max_witness :
    getOffset
        (merge_two_frontiers [(OffsetKey.Empty, OffsetValue.KafkaOffset 3)]
          [(OffsetKey.Empty, OffsetValue.KafkaOffset 5)]) OffsetKey.Empty =
      getOffset
        (merge_two_frontiers [(OffsetKey.Empty, OffsetValue.KafkaOffset 5)]
          [(OffsetKey.Empty, OffsetValue.KafkaOffset 3)]) OffsetKey.Empty := by
  refine (frontier_merge_comm_max
    [(OffsetKey.Empty, OffsetValue.KafkaOffset 3)]
    [(OffsetKey.Empty, OffsetValue.KafkaOffset 5)]
    (by decide) (by decide) ?_).1 OffsetKey.Empty
  intro k v w h1 h2
  simp only [getOffset] at h1 h2
  by_cases hk : OffsetKey.Empty = k
  · rw [if_pos hk] at h1 h2
    cases h1
    cases h2
    decide
  · rw [if_neg hk] at h1
    cases h1

/-- C4: once the lazy-seek map stores offset o for a partition, a read that
polls any number of messages on that partition with offsets at most o followed
by one with offset above o discards every early message while issuing a
consumer-side seek to o + 1 for each, emits the first message with offset
above o as Data tagged (Kafka(topic, partition), KafkaOffset(offset)), and
removes the stored entry for that partition. -/
theorem kafka_lazy_seek_read (r : KafkaReader) (p o : Int) (pre : List KafkaMessage)
    (msg : KafkaMessage) (rest : List KafkaMessage)
    (hpos : alistGet r.positions_for_seek p = some o)
    (hpre : ∀ m ∈ pre, m.partition = p ∧ m.offset ≤ o)
    (hmsg : msg.partition = p) (hoff : o < msg.offset) :
    kafkaRead r (pre ++ msg :: rest) =
      (pre.map (fun m => ⟨m.topic, m.partition, o + 1⟩),
        some
          (ReadResult.Data (ReaderContext.KeyValue msg.key msg.payload)
            (OffsetKey.Kafka r.topic msg.partition, OffsetValue.KafkaOffset msg.offset),
            { r with positions_for_seek := alistRemove r.positions_for_seek p },
            rest)) := by
  induction pre with
  | nil =>
    simp only [List.nil_append, List.map_nil, kafkaRead, hmsg, hpos]
    rw [if_neg (by omega)]
  | cons m pre ih =>
    have hm := hpre m (List.mem_cons_self m pre)
    have hrec := ih fun m2 hm2 => hpre m2 (List.mem_cons_of_mem m hm2)
    simp only [List.cons_append, kafkaRead, hm.1, hpos, List.map_cons]
    rw [if_pos (by omega)]
    simp [hrec]

/-- Witness for kafka_lazy_seek_read: the spec scenario — stored offset 100
for partition 0, consumer delivers offset 50 (discarded with a seek to 101)
then offset 150 (emitted, entry removed). -/
theorem kafka_lazy_seek_read_witness :
    kafkaRead ⟨"t", [(0, 100)]⟩
        [⟨"t", 0, 50, none, none⟩, ⟨"t", 0, 150, none, none⟩] =
      ([⟨"t", 0, 101⟩],
        some
          (ReadResult.Data (ReaderContext.KeyValue none none)
            (OffsetKey.Kafka "t" 0, OffsetValue.KafkaOffset 150),
            ⟨"t", []⟩, [])) := by
  have h := kafka_lazy_seek_read ⟨"t", [(0, 100)]⟩ 0 100
    [⟨"t", 0, 50, none, none⟩] ⟨"t", 0, 150, none, none⟩ []
    (by decide) (by decide) (by decide) (by decide)
  simpa using h

/-- charListLt is irreflexive. -/
theorem charListLt_irrefl (l : List Char) : charListLt l l = false := by
  induction l with
  | nil => rfl
  | cons a as ih => simp [charListLt, ih]

/-- charListLt is transitive. -/
theorem charListLt_trans {a b c : List Char} (h1 : charListLt a b = true)
    (h2 : charListLt b c = true) : charListLt a c = true := by
  induction a generalizing b c with
  | nil =>
    cases c with
    | nil => cases b <;> simp [charListLt] at h1 h2
    | cons z zs => simp [charListLt]
  | cons x xs ih =>
    cases b with
    | nil => simp [charListLt] at h1
    | cons y ys =>
      cases c with
      | nil => simp [charListLt] at h2
      | cons z zs =>
        simp only [charListLt, Bool.or_eq_true, Bool.and_eq_true, decide_eq_true_eq] at h1 h2 ⊢
        rcases h1 with h1 | ⟨h1e, h1l⟩ <;> rcases h2 with h2 | ⟨h2e, h2l⟩
        · exact Or.inl (lt_trans h1 h2)
        · exact Or.inl (h2e ▸ h1)
        · exact Or.inl (h1e ▸ h2)
        · exact Or.inr ⟨h1e.trans h2e, ih h1l h2l⟩

/-- charListLt is total: when a is not below b, b is below a or they are
equal. -/
theorem charListLt_total (a : List Char) : ∀ b, charListLt a b = false →
    charListLt b a = true ∨ a = b := by
  induction a with
  | nil =>
    intro b h
    cases b with
    | nil => exact Or.inr rfl
    | cons y ys => simp [charListLt] at h
  | cons x xs ih =>
    intro b h
    cases b with
    | nil => exact Or.inl (by simp [charListLt])
    | cons y ys =>
      simp only [charListLt, Bool.or_eq_false_iff, Bool.and_eq_false_iff,
        decide_eq_false_iff_not] at h
      obtain ⟨hlt, heq⟩ := h
      by_cases hxy : x = y
      · subst hxy
        rcases heq with heq | heq
        · exact absurd rfl heq
        · rcases ih ys heq with h3 | h3
          · exact Or.inl (by simp [charListLt, h3])
          · exact Or.inr (by rw [h3])
      · have hyx : y < x := by
          rcases lt_trichotomy x y with h3 | h3 | h3
          · exact absurd h3 hlt
          · exact absurd h3 hxy
          · exact h3
        exact Or.inl (by simp [charListLt, hyx])

/-- strLe is reflexive. -/
theorem strLe_refl (a : String) : strLe a a = true := by
  simp [strLe]

/-- A strict comparison implies the non-strict one. -/
theorem strLe_of_strLt {a b : String} (h : strLt a b = true) : strLe a b = true := by
  simp [strLe, h]

/-- strLe is transitive. -/
theorem strLe_trans {a b c : String} (h1 : strLe a b = true) (h2 : strLe b c = true) :
    strLe a c = true := by
  simp only [strLe, Bool.or_eq_true, decide_eq_true_eq] at h1 h2 ⊢
  rcases h1 with h1 | h1
  · rcases h2 with h2 | h2
    · exact Or.inl (charListLt_trans h1 h2)
    · exact Or.inl (h2 ▸ h1)
  · subst h1
    exact h2

/-- Totality: when a is not strictly below b, b is at most a. -/
theorem strLe_of_not_strLt {a b : String} (h : strLt a b = false) : strLe b a = true := by
  rcases charListLt_total a.data b.data h with h3 | h3
  · exact strLe_of_strLt h3
  · have hab : a = b := by
      cases a
      cases b
      simp only at h3
      rw [h3]
    subst hab
    exact strLe_refl a

/-- Folding delStep from a chosen candidate keeps a candidate: the result is
at most the start value, is the start value or some needing-deletion entry,
and is at most every needing-deletion entry of the list. -/
theorem delStep_foldl_some (w : World) (l : List (String × Nat)) (o : String) :
    ∃ q, l.foldl (delStep w) (some o) = some q ∧ strLe q o = true ∧
      (q = o ∨ ∃ e ∈ l, e.1 = q ∧ needs_deletion w e.2 e.1 = true) ∧
      (∀ e ∈ l, needs_deletion w e.2 e.1 = true → strLe q e.1 = true) := by
  induction l generalizing o with
  | nil => exact ⟨o, rfl, strLe_refl o, Or.inl rfl, by simp⟩
  | cons e l ih =>
    by_cases hd : needs_deletion w e.2 e.1 = true
    · by_cases hlt : strLt e.1 o = true
      · have heq : delStep w (some o) e = some e.1 := by simp [delStep, hd, hlt]
        obtain ⟨q, hq, hqo, hqor, hqall⟩ := ih e.1
        refine ⟨q, by simpa [heq] using hq, strLe_trans hqo (strLe_of_strLt hlt), ?_, ?_⟩
        · rcases hqor with h | ⟨e2, he2, h1, h2⟩
          · exact Or.inr ⟨e, List.mem_cons_self e l, h.symm ▸ rfl, hd⟩
          · exact Or.inr ⟨e2, List.mem_cons_of_mem e he2, h1, h2⟩
        · intro e2 he2 hne
          rcases List.mem_cons.mp he2 with h | h
          · exact h ▸ hqo
          · exact hqall e2 h hne
      · have hlt' : strLt e.1 o = false := by simpa using hlt
        have heq : delStep w (some o) e = some o := by simp [delStep, hd, hlt']
        obtain ⟨q, hq, hqo, hqor, hqall⟩ := ih o
        refine ⟨q, by simpa [heq] using hq, hqo, ?_, ?_⟩
        · rcases hqor with h | ⟨e2, he2, h1, h2⟩
          · exact Or.inl h
          · exact Or.inr ⟨e2, List.mem_cons_of_mem e he2, h1, h2⟩
        · intro e2 he2 hne
          rcases List.mem_cons.mp he2 with h | h
          · exact h ▸ strLe_trans hqo (strLe_of_not_strLt hlt')
          · exact hqall e2 h hne
    · have heq : delStep w (some o) e = some o := by simp [delStep, hd]
      obtain ⟨q, hq, hqo, hqor, hqall⟩ := ih o
      refine ⟨q, by simpa [heq] using hq, hqo, ?_, ?_⟩
      · rcases hqor with h | ⟨e2, he2, h1, h2⟩
        · exact Or.inl h
        · exact Or.inr ⟨e2, List.mem_cons_of_mem e he2, h1, h2⟩
      · intro e2 he2 hne
        rcases List.mem_cons.mp he2 with h | h
        · exact absurd (h ▸ hne) (by simpa using hd)
        · exact hqall e2 h hne

/-- Folding delStep from none yields either no candidate (nothing needs
deletion) or the least needing-deletion path. -/
theorem delStep_foldl_none (w : World) (l : List (String × Nat)) :
    (l.foldl (delStep w) none = none ∧ ∀ e ∈ l, needs_deletion w e.2 e.1 = false) ∨
    (∃ q, l.foldl (delStep w) none = some q ∧
      (∃ e ∈ l, e.1 = q ∧ needs_deletion w e.2 e.1 = true) ∧
      (∀ e ∈ l, needs_deletion w e.2 e.1 = true → strLe q e.1 = true)) := by
  induction l with
  | nil => exact Or.inl ⟨rfl, by simp⟩
  | cons e l ih =>
    by_cases hd : needs_deletion w e.2 e.1 = true
    · right
      have heq : delStep w none e = some e.1 := by simp [delStep, hd]
      obtain ⟨q, hq, hqo, hqor, hqall⟩ := delStep_foldl_some w l e.1
      refine ⟨q, by simpa [heq] using hq, ?_, ?_⟩
      · rcases hqor with h | ⟨e2, he2, h1, h2⟩
        · exact ⟨e, List.mem_cons_self e l, h.symm ▸ rfl, hd⟩
        · exact ⟨e2, List.mem_cons_of_mem e he2, h1, h2⟩
      · intro e2 he2 hne
        rcases List.mem_cons.mp he2 with h | h
        · exact h ▸ hqo
        · exact hqall e2 h hne
    · have heq : delStep w none e = none := by simp [delStep, hd]
      rcases ih with ⟨hn, hall⟩ | ⟨q, hq, hsome, hall⟩
      · left
        refine ⟨by simpa [heq] using hn, ?_⟩
        intro e2 he2
        rcases List.mem_cons.mp he2 with h | h
        · subst h
          simpa using hd
        · exact hall e2 h
      · right
        refine ⟨q, by simpa [heq] using hq, ?_, ?_⟩
        · obtain ⟨e2, he2, h1, h2⟩ := hsome
          exact ⟨e2, List.mem_cons_of_mem e he2, h1, h2⟩
        · intro e2 he2 hne
          rcases List.mem_cons.mp he2 with h | h
          · exact absurd (h ▸ hne) (by simpa using hd)
          · exact hall e2 h hne

/-- C1 counterexample: with deletions pending for both "a" and "b" (both
tracked in known_files and both gone from disk), next_deletion_entry acts on
"a", the least path, not on the greatest "b": the selection fold replaces its
candidate whenever the new path is strictly smaller. -/
theorem next_deletion_entry_picks_least_counterexample :
    needs_deletion ⟨[], [], 0⟩ 1 "a" = true ∧
    needs_deletion ⟨[], [], 0⟩ 1 "b" = true ∧
    ((exceptOk? (next_deletion_entry ⟨[], [], 0⟩
          ⟨ConnectorMode.Streaming, some "cache", [("a", 1), ("b", 1)], none, [], none,
            [("a", some ⟨"a", some 1⟩), ("b", some ⟨"b", some 1⟩)]⟩)).map
        fun rs => rs.2.current_action) =
      some (some (PosixScannerAction.Delete "a")) := by
  decide

/-- C1 (amended): when deletions are needed, next_deletion_entry selects the
file whose path is the LEAST in string order among all files of known_files
whose mtime changed or whose metadata lookup reports not-found, and marks it
as the current Delete action. -/
theorem next_deletion_entry_selects_least (w : World) (s : FilesystemScanner)
    (e0 : String × Nat) (he0 : e0 ∈ s.known_files)
    (hneed : needs_deletion w e0.2 e0.1 = true)
    (hmeta : ∀ e ∈ s.known_files, (alistGet s.cached_metadata e.1).isSome = true) :
    ∃ q old s2,
      next_deletion_entry w s = Except.ok (some (ReadResult.NewSource old), s2) ∧
      s2.current_action = some (PosixScannerAction.Delete q) ∧
      (∃ e ∈ s.known_files, e.1 = q ∧ needs_deletion w e.2 e.1 = true) ∧
      (∀ e ∈ s.known_files, needs_deletion w e.2 e.1 = true → strLe q e.1 = true) := by
  rcases delStep_foldl_none w s.known_files with ⟨hn, hall⟩ | ⟨q, hq, hsome, hall⟩
  · exact absurd hneed (by simp [hall e0 he0])
  · have hcand : deletion_candidate w s = some q := hq
    obtain ⟨e, he, he1, hed⟩ := hsome
    have hm := hmeta e he
    rw [he1] at hm
    cases hmv : alistGet s.cached_metadata q with
    | none =>
      rw [hmv] at hm
      simp at hm
    | some old =>
      refine ⟨q, old,
        { s with
          cached_metadata := alistRemove s.cached_metadata q,
          known_files := alistRemove s.known_files q,
          current_action := some (PosixScannerAction.Delete q),
          next_file_for_insertion :=
            if (alistGet w.files q).isSome then some q
            else s.next_file_for_insertion }, ?_, rfl, ⟨e, he, he1, hed⟩, hall⟩
      simp [next_deletion_entry, hcand, hmv]

/-- Witness for next_deletion_entry_selects_least with a single stale known
file. -/
theorem next_deletion_entry_selects_least_witness :
    ((exceptOk? (next_deletion_entry ⟨[], [], 0⟩
          ⟨ConnectorMode.Streaming, some "cache", [("a", 1)], none, [], none,
            [("a", some ⟨"a", some 1⟩)]⟩)).map
        fun rs => rs.2.current_action) =
      some (some (PosixScannerAction.Delete "a")) := by
  obtain ⟨q, old, s2, heq, hact, hsome, hall⟩ :=
    next_deletion_entry_selects_least ⟨[], [], 0⟩
      ⟨ConnectorMode.Streaming, some "cache", [("a", 1)], none, [], none,
        [("a", some ⟨"a", some 1⟩)]⟩
      ("a", 1) (by decide) (by decide) (by decide)
  obtain ⟨e, he, he1, _⟩ := hsome
  have he' : e = ("a", 1) := by simpa using he
  rw [he'] at he1
  rw [heq]
  simp [exceptOk?, hact, ← he1]

/-- C8 counterexample: the cache filename is not the hexadecimal rendering of
the 128-bit digest of the path bytes. -/
theorem cache_filename_not_hex :
    cached_file_path ⟨ConnectorMode.Streaming, some "cache", [], none, [], none, []⟩ "a" ≠
      some ("cache" ++ "/" ++ hexRender (xxh3_digest128 (pathBytes "a"))) := by
  decide

/-- C8 (amended): the cached copy of a tracked path lives at
cache_dir/decimal(xxh3_128(path bytes)) — the DECIMAL rendering of the
128-bit digest (Display formatting of u128), not the hexadecimal one. -/
theorem cached_file_path_decimal (s : FilesystemScanner) (root p : String)
    (h : s.cache_directory_path = some root) :
    cached_file_path s p =
      some (root ++ "/" ++ decimalRender (xxh3_digest128 (pathBytes p))) := by
  simp [cached_file_path, h, decimalRender, Nat.repr]

/-- Witness for cached_file_path_decimal at a concrete scanner and path. -/
theorem cached_file_path_decimal_witness :
    cached_file_path ⟨ConnectorMode.Streaming, some "cache", [], none, [], none, []⟩ "a" =
      some ("cache" ++ "/" ++ decimalRender (xxh3_digest128 (pathBytes "a"))) :=
  cached_file_path_decimal
    ⟨ConnectorMode.Streaming, some "cache", [], none, [], none, []⟩ "cache" "a" rfl

/-- initiate_file_insertion surfaces a NewSource result and leaves the
scheduled reinsertion untouched. -/
theorem initiate_file_insertion_newSource (w : World) (s : FilesystemScanner)
    (p : String) (r : ReadResult) (s' : FilesystemScanner) (w' : World)
    (h : initiate_file_insertion w s p = Except.ok (r, s', w')) :
    (∃ m, r = ReadResult.NewSource (some m)) ∧
    s'.next_file_for_insertion = s.next_file_for_insertion := by
  unfold initiate_file_insertion at h
  split at h
  · cases h
  · dsimp only at h
    split at h
    · injection h with h1
      injection h1 with ha hb
      injection hb with hb hc
      subst hb
      exact ⟨⟨_, ha.symm⟩, rfl⟩
    · injection h with h1
      injection h1 with ha hb
      injection hb with hb hc
      subst hb
      exact ⟨⟨_, ha.symm⟩, rfl⟩

/-- next_deletion_entry surfaces only NewSource results. -/
theorem next_deletion_entry_newSource (w : World) (s : FilesystemScanner)
    (r : ReadResult) (s' : FilesystemScanner)
    (h : next_deletion_entry w s = Except.ok (some r, s')) :
    ∃ m, r = ReadResult.NewSource m := by
  unfold next_deletion_entry at h
  split at h
  · simp at h
  · split at h
    · cases h
    · injection h with h1
      injection h1 with ha hb
      injection ha with ha
      exact ⟨_, ha.symm⟩

/-- next_insertion_entry surfaces nothing or a NewSource result. -/
theorem next_insertion_entry_result (w : World) (s : FilesystemScanner)
    (out : Option ReadResult) (s' : FilesystemScanner) (w' : World)
    (h : next_insertion_entry w s = Except.ok (out, s', w')) :
    out = none ∨ ∃ m, out = some (ReadResult.NewSource (some m)) := by
  unfold next_insertion_entry at h
  dsimp only at h
  split at h
  · rename_i sel hsel
    cases hini : initiate_file_insertion w (List.foldl (insStep w) (none, s) w.files).2 sel.1 with
    | error e =>
      rw [hini] at h
      simp [Except.map] at h
    | ok rsw =>
      rw [hini] at h
      simp only [Except.map] at h
      obtain ⟨⟨m, hm⟩, -⟩ :=
        initiate_file_insertion_newSource _ _ _ rsw.1 rsw.2.1 rsw.2.2 (by rw [hini])
      injection h with h1
      injection h1 with ha hb
      exact Or.inr ⟨m, by rw [← ha, hm]⟩
  · injection h with h1
    injection h1 with ha hb
    exact Or.inl ha.symm

/-- The only FinishedSource next_action_determined can surface is the
commit-allowed collapse of an abandoned reinsertion, and it leaves no
scheduled reinsertion behind. -/
theorem next_action_finishedSource (w : World) (s : FilesystemScanner) (c : Bool)
    (s' : FilesystemScanner) (w' : World)
    (h : next_action_determined w s = Except.ok (some (ReadResult.FinishedSource c), s', w')) :
    c = true ∧ s'.next_file_for_insertion = none := by
  unfold next_action_determined at h
  cases hfin : finalize_action w s with
  | error e =>
    rw [hfin] at h
    simp [Except.bind] at h
  | ok sw =>
    obtain ⟨s1, w1⟩ := sw
    rw [hfin] at h
    simp only [Except.bind] at h
    cases hnf : s1.next_file_for_insertion with
    | some nf =>
      simp only [hnf] at h
      by_cases hex : (alistGet w1.files nf).isSome = true
      · rw [if_pos hex] at h
        cases hini : initiate_file_insertion w1 { s1 with next_file_for_insertion := none } nf with
        | error e =>
          rw [hini] at h
          simp [Except.map] at h
        | ok rsw =>
          rw [hini] at h
          simp only [Except.map] at h
          obtain ⟨⟨m, hm⟩, -⟩ :=
            initiate_file_insertion_newSource _ _ _ rsw.1 rsw.2.1 rsw.2.2 (by rw [hini])
          rw [hm] at h
          simp at h
      · rw [if_neg hex] at h
        simp only [Except.ok.injEq, Prod.mk.injEq, Option.some.injEq] at h
        obtain ⟨hr, hs, hw⟩ := h
        injection hr with hr
        exact ⟨hr.symm, by rw [← hs]⟩
    | none =>
      simp only [hnf] at h
      by_cases hdel : s1.streaming_mode.are_deletions_enabled = true
      · rw [if_pos hdel] at h
        cases hdel2 : next_deletion_entry w1 s1 with
        | error e =>
          rw [hdel2] at h
          cases h
        | ok os =>
          obtain ⟨oOut, s2⟩ := os
          cases oOut with
          | some r =>
            rw [hdel2] at h
            dsimp only at h
            obtain ⟨m, hm⟩ := next_deletion_entry_newSource w1 s1 r s2 hdel2
            rw [hm] at h
            simp at h
          | none =>
            rw [hdel2] at h
            dsimp only at h
            rcases next_insertion_entry_result w1 s2 _ _ _ h with h2 | ⟨m, h2⟩ <;> simp at h2
      · rw [if_neg hdel] at h
        rcases next_insertion_entry_result w1 s1 _ _ _ h with h2 | ⟨m, h2⟩ <;> simp at h2

/-- C2: every FinishedSource surfaced by FilesystemReader::read carries
commit_allowed false exactly when the scanner still has a scheduled
reinsertion (next_file_for_insertion is Some) after the call, and true
otherwise — including the abandoned-reinsertion collapse, which clears the
schedule and allows commits. The deferred-consistency invariant is preserved
by every call. -/
theorem fs_commit_allowed_iff_planned_insertion (w : World) (fr : FilesystemReader)
    (hdef : DeferredConsistent fr) (out : Option ReadResult) (fr' : FilesystemReader)
    (w' : World) (h : fsRead w fr = Except.ok (out, fr', w')) :
    (∀ c, out = some (ReadResult.FinishedSource c) →
      c = !(has_planned_insertion fr'.filesystem_scanner)) ∧
    DeferredConsistent fr' := by
  unfold fsRead at h
  cases hdr : fr.deferred_read_result with
  | some deferred =>
    simp only [hdr] at h
    injection h with h1
    injection h1 with ha hb
    injection hb with hb hc
    subst ha hb
    constructor
    · intro c hc2
      injection hc2 with hc2
      have hD := hdef c (by rw [hdr, hc2])
      simpa using hD
    · intro c hc2
      simp at hc2
  | none =>
    simp only [hdr] at h
    cases hrd : fr.reader with
    | some reader0 =>
      simp only [hrd] at h
      by_cases hcond :
          (read_next_bytes fr.read_method reader0).1 > 0 ∨ fr.read_method = ReadMethod.Full
      · rw [if_pos hcond] at h
        cases hoff : current_offset_file fr.filesystem_scanner with
        | none =>
          simp only [hoff] at h
          cases h
        | some path =>
          simp only [hoff] at h
          cases hev : data_event_type fr.filesystem_scanner with
          | none =>
            simp only [hev] at h
            cases h
          | some ev =>
            simp only [hev] at h
            by_cases hfull : fr.read_method = ReadMethod.Full
            · rw [if_pos hfull] at h
              injection h with h1
              injection h1 with ha hb
              injection hb with hb hc
              subst ha hb
              constructor
              · intro c hc2
                simp at hc2
              · intro c hc2
                simp only at hc2
                injection hc2 with hc2
                injection hc2 with hc2
                simpa using hc2.symm
            · rw [if_neg hfull] at h
              injection h with h1
              injection h1 with ha hb
              injection hb with hb hc
              subst ha hb
              constructor
              · intro c hc2
                simp at hc2
              · intro c hc2
                simp [hdr] at hc2
      · rw [if_neg hcond] at h
        injection h with h1
        injection h1 with ha hb
        injection hb with hb hc
        subst ha hb
        constructor
        · intro c hc2
          injection hc2 with hc2
          injection hc2 with hc2
          simpa using hc2.symm
        · intro c hc2
          simp [hdr] at hc2
    | none =>
      simp only [hrd] at h
      cases hna : next_action_determined w fr.filesystem_scanner with
      | error e =>
        rw [hna] at h
        cases h
      | ok osw =>
        obtain ⟨oOut, s, w2⟩ := osw
        cases oOut with
        | some next_read_result =>
          rw [hna] at h
          cases hcf : current_file s with
          | some selected_file =>
            simp only [hcf] at h
            cases hopen : openFile w2 selected_file with
            | error e =>
              rw [hopen] at h
              simp [Except.map] at h
            | ok br =>
              rw [hopen] at h
              simp only [Except.map] at h
              injection h with h1
              injection h1 with ha hb
              injection hb with hb hc
              subst ha hb
              constructor
              · intro c hc2
                injection hc2 with hc2
                have hres := next_action_finishedSource w fr.filesystem_scanner c s w2
                  (by rw [← hc2]; exact hna)
                simp [has_planned_insertion, hres.2, hres.1]
              · intro c hc2
                simp [hdr] at hc2
          | none =>
            simp only [hcf] at h
            injection h with h1
            injection h1 with ha hb
            injection hb with hb hc
            subst ha hb
            constructor
            · intro c hc2
              injection hc2 with hc2
              have hres := next_action_finishedSource w fr.filesystem_scanner c s w2
                (by rw [← hc2]; exact hna)
              simp [has_planned_insertion, hres.2, hres.1]
            · intro c hc2
              simp [hdr] at hc2
        | none =>
          rw [hna] at h
          dsimp only at h
          by_cases hpoll : is_polling_enabled s = true
          · rw [if_pos hpoll] at h
            injection h with h1
            injection h1 with ha hb
            injection hb with hb hc
            subst ha hb
            constructor
            · intro c hc2
              cases hc2
            · intro c hc2
              simp [hdr] at hc2
          · rw [if_neg hpoll] at h
            injection h with h1
            injection h1 with ha hb
            injection hb with hb hc
            subst ha hb
            constructor
            · intro c hc2
              simp at hc2
            · intro c hc2
              simp [hdr] at hc2

/-- Witness for fs_commit_allowed_iff_planned_insertion: a one-shot ByLine
read over an exhausted file emits FinishedSource with commits allowed, and the
scanner indeed has no reinsertion planned. -/
theorem fs_commit_allowed_iff_planned_insertion_witness :
    true = !(has_planned_insertion
      (⟨ConnectorMode.Static, none, [], some (PosixScannerAction.Read "f"), [], none, []⟩ :
        FilesystemScanner)) :=
  (fs_commit_allowed_iff_planned_insertion ⟨[], [], 0⟩
    ⟨ReadMethod.ByLine, some ⟨[], 0⟩,
      ⟨ConnectorMode.Static, none, [], some (PosixScannerAction.Read "f"), [], none, []⟩, 0, none⟩
    (by intro c hc; cases hc)
    (some (ReadResult.FinishedSource true))
    ⟨ReadMethod.ByLine, none,
      ⟨ConnectorMode.Static, none, [], some (PosixScannerAction.Read "f"), [], none, []⟩, 0, none⟩
    ⟨[], [], 0⟩ rfl).1 true rfl

/-- C10: with ReadMethod::Full, a read over an open file always emits exactly
one Data record carrying the remaining bytes — the empty byte string for an
empty file — with total_entries_read incremented, closes the reader and
defers a FinishedSource; any read on a state holding that deferred
FinishedSource returns it next. Zero bytes never suppress the Data event.
The same holds for the S3 generic reader with S3ObjectPosition offsets and
commit_allowed true. -/
theorem read_full_single_record (w : World) (fr : FilesystemReader) (br : ByteReader)
    (p : String) (ev : DataEventType)
    (listing : List S3Object) (bw : List (String × List Nat))
    (sr : S3GenericReader) (br2 : ByteReader) (p2 : String)
    (hmethod : fr.read_method = ReadMethod.Full)
    (hdef : fr.deferred_read_result = none)
    (hreader : fr.reader = some br)
    (hoff : current_offset_file fr.filesystem_scanner = some p)
    (hev : data_event_type fr.filesystem_scanner = some ev)
    (hmethod2 : sr.read_method = ReadMethod.Full)
    (hdef2 : sr.deferred_read_result = none)
    (hreader2 : sr.reader = some br2)
    (hpath2 : sr.s3_scanner.current_object_path = some p2) :
    fsRead w fr = Except.ok
      (some (ReadResult.Data (ReaderContext.RawBytes ev (br.content.drop br.pos))
        (OffsetKey.Empty,
          OffsetValue.FilePosition (fr.total_entries_read + 1) p
            (br.pos + (br.content.drop br.pos).length))),
        { fr with
          total_entries_read := fr.total_entries_read + 1,
          deferred_read_result := some (ReadResult.FinishedSource
            (!has_planned_insertion fr.filesystem_scanner)),
          reader := none }, w) ∧
    (∀ fr2 : FilesystemReader,
      fr2.deferred_read_result =
          some (ReadResult.FinishedSource (!has_planned_insertion fr.filesystem_scanner)) →
      fsRead w fr2 = Except.ok
        (some (ReadResult.FinishedSource (!has_planned_insertion fr.filesystem_scanner)),
          { fr2 with deferred_read_result := none }, w)) ∧
    s3GenRead listing bw sr = Except.ok
      (some (ReadResult.Data (ReaderContext.RawBytes DataEventType.Insert
          (br2.content.drop br2.pos))
        (OffsetKey.Empty,
          OffsetValue.S3ObjectPosition (sr.total_entries_read + 1) p2
            (sr.current_bytes_read + (br2.content.drop br2.pos).length))),
        { sr with
          total_entries_read := sr.total_entries_read + 1,
          current_bytes_read := sr.current_bytes_read + (br2.content.drop br2.pos).length,
          deferred_read_result := some (ReadResult.FinishedSource true),
          reader := none }) ∧
    (∀ sr2 : S3GenericReader,
      sr2.deferred_read_result = some (ReadResult.FinishedSource true) →
      s3GenRead listing bw sr2 = Except.ok
        (some (ReadResult.FinishedSource true),
          { sr2 with deferred_read_result := none })) := by
  refine ⟨?_, ?_, ?_, ?_⟩
  · unfold fsRead
    simp only [hdef, hreader, hmethod, hoff, hev, read_next_bytes, or_true, if_true]
  · intro fr2 h2
    unfold fsRead
    simp only [h2]
  · unfold s3GenRead
    simp only [hdef2, hreader2, hmethod2, hpath2, read_next_bytes, or_true, if_true]
  · intro sr2 h2
    unfold s3GenRead
    simp only [h2]

/-- Witness for read_full_single_record: a Full read over an empty open file
emits one Data record with the empty payload, then FinishedSource. -/
theorem read_full_single_record_witness :
    fsRead ⟨[], [], 0⟩
        ⟨ReadMethod.Full, some ⟨[], 0⟩,
          ⟨ConnectorMode.Static, none, [], some (PosixScannerAction.Read "f"), [], none, []⟩,
          0, none⟩ =
      Except.ok
        (some (ReadResult.Data (ReaderContext.RawBytes DataEventType.Insert [])
          (OffsetKey.Empty, OffsetValue.FilePosition 1 "f" 0)),
          ⟨ReadMethod.Full, none,
            ⟨ConnectorMode.Static, none, [], some (PosixScannerAction.Read "f"), [], none, []⟩,
            1, some (ReadResult.FinishedSource true)⟩, ⟨[], [], 0⟩) ∧
    fsRead ⟨[], [], 0⟩
        ⟨ReadMethod.Full, none,
          ⟨ConnectorMode.Static, none, [], some (PosixScannerAction.Read "f"), [], none, []⟩,
          1, some (ReadResult.FinishedSource true)⟩ =
      Except.ok
        (some (ReadResult.FinishedSource true),
          ⟨ReadMethod.Full, none,
            ⟨ConnectorMode.Static, none, [], some (PosixScannerAction.Read "f"), [], none, []⟩,
            1, none⟩, ⟨[], [], 0⟩) := by
  have h := read_full_single_record ⟨[], [], 0⟩
    ⟨ReadMethod.Full, some ⟨[], 0⟩,
      ⟨ConnectorMode.Static, none, [], some (PosixScannerAction.Read "f"), [], none, []⟩,
      0, none⟩ ⟨[], 0⟩ "f" DataEventType.Insert
    [] [] ⟨⟨[], some "k"⟩, false, ReadMethod.Full, some ⟨[], 0⟩, 0, 0, none⟩ ⟨[], 0⟩ "k"
    rfl rfl rfl rfl rfl rfl rfl rfl rfl
  exact ⟨h.1, h.2.1
    ⟨ReadMethod.Full, none,
      ⟨ConnectorMode.Static, none, [], some (PosixScannerAction.Read "f"), [], none, []⟩,
      1, some (ReadResult.FinishedSource true)⟩ rfl⟩

/-- C6: for both delimited readers, a seek whose decoded offset has a positive
bytes_offset and whose file has a readable first record defers that header
record as a tokenized Data event tagged with exactly the offset value decoded
from the frontier, and the next read returns it before any further record of
the file. -/
theorem csv_seek_defers_header
    (w : World) (cw : List (String × CsvFile)) (r : CsvFilesystemReader)
    (frontier : OffsetAntichain) (total bytes : Nat) (path : String)
    (s : FilesystemScanner) (file : CsvFile) (headerRec : List String × Nat)
    (rest : List (List String × Nat))
    (listing : List S3Object) (cw2 : List (String × CsvFile)) (r2 : S3CsvReader)
    (frontier2 : OffsetAntichain) (total2 bytes2 : Nat) (path2 : String)
    (headerRec2 : List String × Nat) (rest2 : List (List String × Nat))
    (hfr : getOffset frontier OffsetKey.Empty =
      some (OffsetValue.FilePosition total path bytes))
    (hb : 0 < bytes)
    (hseek : seek_to_file w r.filesystem_scanner path = Except.ok s)
    (hact : s.current_action = some (PosixScannerAction.Read path))
    (hcw : alistGet cw path = some file)
    (hfile : file = headerRec :: rest)
    (hfr2 : getOffset frontier2 OffsetKey.Empty =
      some (OffsetValue.S3ObjectPosition total2 path2 bytes2))
    (hb2 : 0 < bytes2)
    (hcw2 : alistGet cw2 path2 = some (headerRec2 :: rest2)) :
    (csvFsSeek w cw r frontier = Except.ok
      { r with
        filesystem_scanner := s,
        total_entries_read := total,
        reader := some (csvSeekHandle file bytes),
        deferred_read_result := some (ReadResult.Data
          (ReaderContext.TokenizedEntries DataEventType.Insert headerRec.1)
          (OffsetKey.Empty, OffsetValue.FilePosition total path bytes)) } ∧
      csvFsRead w cw
        { r with
          filesystem_scanner := s,
          total_entries_read := total,
          reader := some (csvSeekHandle file bytes),
          deferred_read_result := some (ReadResult.Data
            (ReaderContext.TokenizedEntries DataEventType.Insert headerRec.1)
            (OffsetKey.Empty, OffsetValue.FilePosition total path bytes)) } =
        Except.ok
          (some (ReadResult.Data
            (ReaderContext.TokenizedEntries DataEventType.Insert headerRec.1)
            (OffsetKey.Empty, OffsetValue.FilePosition total path bytes)),
            { r with
              filesystem_scanner := s,
              total_entries_read := total,
              reader := some (csvSeekHandle file bytes),
              deferred_read_result := none }, w)) ∧
    (s3CsvSeek listing cw2 r2 frontier2 = Except.ok
      { r2 with
        s3_scanner := { seek_to_object listing r2.s3_scanner path2 with
          current_object_path := some path2 },
        csv_reader := some (s3CsvCatchup bytes2 rest2 headerRec2.2),
        total_entries_read := total2,
        deferred_read_result := some (ReadResult.Data
          (ReaderContext.TokenizedEntries DataEventType.Insert headerRec2.1)
          (OffsetKey.Empty, OffsetValue.S3ObjectPosition total2 path2 bytes2)) } ∧
      s3CsvRead listing cw2
        { r2 with
          s3_scanner := { seek_to_object listing r2.s3_scanner path2 with
            current_object_path := some path2 },
          csv_reader := some (s3CsvCatchup bytes2 rest2 headerRec2.2),
          total_entries_read := total2,
          deferred_read_result := some (ReadResult.Data
            (ReaderContext.TokenizedEntries DataEventType.Insert headerRec2.1)
            (OffsetKey.Empty, OffsetValue.S3ObjectPosition total2 path2 bytes2)) } =
        Except.ok
          (some (ReadResult.Data
            (ReaderContext.TokenizedEntries DataEventType.Insert headerRec2.1)
            (OffsetKey.Empty, OffsetValue.S3ObjectPosition total2 path2 bytes2)),
            { r2 with
              s3_scanner := { seek_to_object listing r2.s3_scanner path2 with
                current_object_path := some path2 },
              csv_reader := some (s3CsvCatchup bytes2 rest2 headerRec2.2),
              total_entries_read := total2,
              deferred_read_result := none })) := by
  refine ⟨⟨?_, ?_⟩, ⟨?_, ?_⟩⟩
  · unfold csvFsSeek
    rw [hfr]
    simp only [hseek, Except.bind, hcw, hfile]
    rw [if_pos hb]
    simp [data_event_type, hact]
  · unfold csvFsRead
    rfl
  · unfold s3CsvSeek
    rw [hfr2]
    simp only [hcw2, Option.getD_some]
    rw [if_pos hb2]
  · unfold s3CsvRead
    rfl

/-- Witness for csv_seek_defers_header: one file "f" with header and one data
row, sought at byte offset 4 through both readers. -/
theorem csv_seek_defers_header_witness :
    csvFsSeek ⟨[("f", ⟨some 1, []⟩)], [], 0⟩ [("f", [(["a", "b"], 4), (["0", "1"], 8)])]
        ⟨none, ⟨ConnectorMode.Static, none, [], none, [], none, []⟩, 0, none⟩
        [(OffsetKey.Empty, OffsetValue.FilePosition 1 "f" 4)] =
      Except.ok
        ⟨some ⟨[(["0", "1"], 8)]⟩,
          ⟨ConnectorMode.Static, none, [("f", 1)], some (PosixScannerAction.Read "f"),
            [("f", some 1)], none, []⟩, 1,
          some (ReadResult.Data
            (ReaderContext.TokenizedEntries DataEventType.Insert ["a", "b"])
            (OffsetKey.Empty, OffsetValue.FilePosition 1 "f" 4))⟩ ∧
    s3CsvSeek [⟨"k", some 5⟩] [("k", [(["a", "b"], 4), (["0", "1"], 8)])]
        ⟨⟨[], none⟩, false, none, 0, none⟩
        [(OffsetKey.Empty, OffsetValue.S3ObjectPosition 1 "k" 4)] =
      Except.ok
        ⟨⟨["k"], some "k"⟩, false, some ⟨[(["0", "1"], 8)]⟩, 1,
          some (ReadResult.Data
            (ReaderContext.TokenizedEntries DataEventType.Insert ["a", "b"])
            (OffsetKey.Empty, OffsetValue.S3ObjectPosition 1 "k" 4))⟩ := by
  have h := csv_seek_defers_header
    ⟨[("f", ⟨some 1, []⟩)], [], 0⟩ [("f", [(["a", "b"], 4), (["0", "1"], 8)])]
    ⟨none, ⟨ConnectorMode.Static, none, [], none, [], none, []⟩, 0, none⟩
    [(OffsetKey.Empty, OffsetValue.FilePosition 1 "f" 4)] 1 4 "f"
    ⟨ConnectorMode.Static, none, [("f", 1)], some (PosixScannerAction.Read "f"),
      [("f", some 1)], none, []⟩
    [(["a", "b"], 4), (["0", "1"], 8)] (["a", "b"], 4) [(["0", "1"], 8)]
    [⟨"k", some 5⟩] [("k", [(["a", "b"], 4), (["0", "1"], 8)])]
    ⟨⟨[], none⟩, false, none, 0, none⟩
    [(OffsetKey.Empty, OffsetValue.S3ObjectPosition 1 "k" 4)] 1 4 "k"
    (["a", "b"], 4) [(["0", "1"], 8)]
    (by decide) (by decide) (by decide) (by decide) (by decide) (by decide)
    (by decide) (by decide) (by decide)
  refine ⟨?_, ?_⟩
  · have h1 := h.1.1
    exact h1.trans (by decide)
  · have h2 := h.2.1
    exact h2.trans (by decide)

/-- C9: when the subject has not enabled deletions, a read that obtains a
non-Insert event returns an error rather than a Data result, and the entry
counter and finished flag are unchanged by the call. -/
theorem python_rejects_non_insert (subject : PythonSubject) (r : PythonReader)
    (reply : DataEventType × Option Value × ValuesMap)
    (hfin : r.is_finished = false)
    (hev : reply.1 ≠ DataEventType.Insert)
    (hdel : subject.deletions_enabled = false) :
    (pythonRead subject r reply).1 = Except.error ModelError.pyValueError ∧
    (pythonRead subject r reply).2.total_entries_read = r.total_entries_read ∧
    (pythonRead subject r reply).2.is_finished = r.is_finished := by
  unfold pythonRead
  by_cases hinit : r.is_initialized
  · simp [hinit, hfin, hev, hdel]
  · simp [hinit, hfin, hev, hdel]

/-- Witness for python_rejects_non_insert: a Delete event on a subject with
deletions disabled. -/
theorem python_rejects_non_insert_witness :
    (pythonRead ⟨false⟩ ⟨0, false, false⟩ (DataEventType.Delete, none, [])).1 =
      Except.error ModelError.pyValueError ∧
    (pythonRead ⟨false⟩ ⟨0, false, false⟩
      (DataEventType.Delete, none, [])).2.total_entries_read = 0 ∧
    (pythonRead ⟨false⟩ ⟨0, false, false⟩ (DataEventType.Delete, none, [])).2.is_finished =
      false :=
  python_rejects_non_insert ⟨false⟩ ⟨0, false, false⟩
    (DataEventType.Delete, none, ([] : ValuesMap)) rfl (by decide) rfl

/-- Lookup after a generic store: the stored key maps to the new value and
every other key is untouched. -/
theorem alistGet_alistPut {κ ν : Type} [DecidableEq κ] (m : List (κ × ν)) (k : κ) (v : ν)
    (k2 : κ) : alistGet (alistPut m k v) k2 = if k2 = k then some v else alistGet m k2 := by
  induction m with
  | nil =>
    by_cases h : k = k2
    · subst h
      simp [alistPut, alistGet]
    · have h2 : ¬ (k2 = k) := fun hh => h hh.symm
      simp [alistPut, alistGet, h, h2]
  | cons hd tl ih =>
    obtain ⟨k0, v0⟩ := hd
    by_cases h0 : k0 = k
    · subst h0
      by_cases h2 : k0 = k2
      · subst h2
        simp [alistPut, alistGet]
      · have h2a : ¬ (k2 = k0) := fun hh => h2 hh.symm
        simp [alistPut, alistGet, h2, h2a]
    · by_cases h2 : k0 = k2
      · subst h2
        simp [alistPut, alistGet, h0]
      · simp [alistPut, alistGet, h0, h2, ih]

/-- Storing back the value already present leaves the list unchanged. -/
theorem alistPut_self {κ ν : Type} [DecidableEq κ] (m : List (κ × ν)) (k : κ) (v : ν)
    (h : alistGet m k = some v) : alistPut m k v = m := by
  induction m with
  | nil => cases h
  | cons hd tl ih =>
    obtain ⟨k0, v0⟩ := hd
    by_cases h0 : k0 = k
    · subst h0
      simp [alistGet] at h
      simp [alistPut, h]
    · simp [alistGet, h0] at h
      simp [alistPut, h0, ih h]

/-- Membership in a duplicate-free association list determines lookup. -/
theorem alistGet_of_mem {κ ν : Type} [DecidableEq κ] (m : List (κ × ν))
    (hn : (m.map Prod.fst).Nodup) (e : κ × ν) (he : e ∈ m) : alistGet m e.1 = some e.2 := by
  induction m with
  | nil => cases he
  | cons hd tl ih =>
    obtain ⟨k0, v0⟩ := hd
    have hcons : ((k0, v0) :: tl).map Prod.fst = k0 :: tl.map Prod.fst := rfl
    rw [hcons] at hn
    rcases List.mem_cons.mp he with h | h
    · subst h
      simp [alistGet]
    · have hk : ¬ (k0 = e.1) := by
        intro hk0
        exact (List.nodup_cons.mp hn).1 (hk0 ▸ List.mem_map_of_mem Prod.fst h)
      simp [alistGet, hk, ih (List.nodup_cons.mp hn).2 h]

/-- Absence from the keys of an association list yields no lookup result. -/
theorem alistGet_eq_none_of_not_mem {κ ν : Type} [DecidableEq κ] (m : List (κ × ν))
    (k : κ) (h : k ∉ m.map Prod.fst) : alistGet m k = none := by
  induction m with
  | nil => rfl
  | cons hd tl ih =>
    obtain ⟨k0, v0⟩ := hd
    have hcons : ((k0, v0) :: tl).map Prod.fst = k0 :: tl.map Prod.fst := rfl
    rw [hcons] at h
    have h1 : ¬ (k0 = k) := fun hh => h (by simp [hh])
    have h2 : k ∉ tl.map Prod.fst := fun hh => h (List.mem_cons_of_mem _ hh)
    simp [alistGet, h1, ih h2]

/-- loadRow always stores the row value and appends exactly the events
described by rowEvents for the current state. -/
theorem loadRow_eq (s : List (Int × ValuesMap)) (q : List ReadResult)
    (row : Int × ValuesMap) :
    loadRow (s, q) row = (alistPut s row.1 row.2, q ++ rowEvents s row) := by
  unfold loadRow rowEvents
  cases hget : alistGet s row.1 with
  | none => simp
  | some current_values =>
    by_cases heq : current_values = row.2
    · subst heq
      simp [alistPut_self s row.1 row.2 hget]
    · simp [heq]

/-- Congruence for mapped event lists. -/
theorem map_join_congr {α β : Type} (l : List α) (f g : α → List β)
    (h : ∀ x ∈ l, f x = g x) : (l.map f).flatten = (l.map g).flatten := by
  induction l with
  | nil => rfl
  | cons x xs ih =>
    simp only [List.map_cons, List.flatten_cons]
    rw [h x (List.mem_cons_self x xs), ih fun y hy => h y (List.mem_cons_of_mem x hy)]

/-- rowEvents only consults the stored entry of its own rowid. -/
theorem rowEvents_congr (s : List (Int × ValuesMap)) (k : Int) (v : ValuesMap)
    (row : Int × ValuesMap) (h : row.1 ≠ k) :
    rowEvents (alistPut s k v) row = rowEvents s row := by
  unfold rowEvents
  rw [alistGet_alistPut s k v row.1, if_neg h]

/-- Folding loadRow over duplicate-free rows stores every row and enqueues the
concatenation of the per-row events computed against the initial state. -/
theorem loadRow_foldl (rows : List (Int × ValuesMap)) (s : List (Int × ValuesMap))
    (q : List ReadResult) (hnodup : (rows.map Prod.fst).Nodup) :
    rows.foldl loadRow (s, q) =
      (rows.foldl (fun acc row => alistPut acc row.1 row.2) s,
        q ++ ((rows.map (rowEvents s)).flatten)) := by
  induction rows generalizing s q with
  | nil => simp
  | cons row rest ih =>
    have hcons : ((row :: rest).map Prod.fst) = row.1 :: rest.map Prod.fst := rfl
    rw [hcons] at hnodup
    have hmem : row.1 ∉ rest.map Prod.fst := (List.nodup_cons.mp hnodup).1
    have htl : (rest.map Prod.fst).Nodup := (List.nodup_cons.mp hnodup).2
    have hstep : List.foldl loadRow (s, q) (row :: rest) =
        List.foldl loadRow (alistPut s row.1 row.2, q ++ rowEvents s row) rest := by
      rw [List.foldl_cons, loadRow_eq]
    rw [hstep, ih _ _ htl]
    have hcongr : (rest.map (rowEvents (alistPut s row.1 row.2))).flatten =
        (rest.map (rowEvents s)).flatten := by
      refine map_join_congr rest _ _ fun r hr => ?_
      refine rowEvents_congr s row.1 row.2 r fun hk => ?_
      exact hmem (hk ▸ List.mem_map_of_mem Prod.fst hr)
    rw [hcongr]
    simp [List.flatten_cons, List.append_assoc]

/-- Storing a key already marked present does not change the entries filtered
as absent. -/
theorem alistPut_filter_not_present (present : List Int) (s : List (Int × ValuesMap))
    (k : Int) (v : ValuesMap) (hk : present.contains k = true) :
    (alistPut s k v).filter (fun e => !(present.contains e.1)) =
      s.filter (fun e => !(present.contains e.1)) := by
  induction s with
  | nil =>
    have hk2 : k ∈ present := by simpa using hk
    simp [alistPut, List.filter, hk2]
  | cons hd tl ih =>
    obtain ⟨k0, v0⟩ := hd
    by_cases h0 : k0 = k
    · subst h0
      have hk2 : k0 ∈ present := by simpa using hk
      simp [alistPut, List.filter, hk2]
    · simp only [alistPut, if_neg h0, List.filter]
      rw [ih]

/-- Folding the stores of all rows does not change the entries whose rowid is
not present among the rows. -/
theorem foldPut_filter_not_present (present : List Int) (rows : List (Int × ValuesMap))
    (s : List (Int × ValuesMap)) (hall : ∀ row ∈ rows, present.contains row.1 = true) :
    ((rows.foldl (fun acc row => alistPut acc row.1 row.2) s).filter
        (fun e => !(present.contains e.1))) =
      s.filter (fun e => !(present.contains e.1)) := by
  induction rows generalizing s with
  | nil => rfl
  | cons row rest ih =>
    rw [List.foldl_cons, ih _ fun r hr => hall r (List.mem_cons_of_mem row hr),
      alistPut_filter_not_present present s row.1 row.2 (hall row (List.mem_cons_self row rest))]

/-- C7: SqliteReader::load_table, run from an empty queue against
stored_state, enqueues per table row nothing when the values match the stored
ones, a single Insert when the rowid is new, and a Delete of the old values
immediately followed by an Insert of the new ones when they differ; then one
Delete for every stored rowid missing from the table; and appends
FinishedSource with commits allowed exactly when at least one diff was
enqueued. -/
theorem sqlite_load_table_spec (stored rows : List (Int × ValuesMap))
    (hrows : (rows.map Prod.fst).Nodup) :
    (loadTable stored rows).2 =
      (if ((rows.map (rowEvents stored)).flatten ++ staleEvents stored rows).isEmpty then []
       else ((rows.map (rowEvents stored)).flatten ++ staleEvents stored rows) ++
         [ReadResult.FinishedSource true]) := by
  unfold loadTable staleEvents
  rw [loadRow_foldl rows stored [] hrows]
  dsimp only
  rw [foldPut_filter_not_present (rows.map Prod.fst) rows stored
    (fun r hr => by simpa using List.mem_map_of_mem Prod.fst hr)]
  simp only [List.nil_append]
  split
  · rename_i hemp
    simpa using hemp
  · rfl

/-- Witness for sqlite_load_table_spec: stored rowids 1 (unchanged), 2
(modified) and 4 (gone); table rowids 1, 2 and 3 (new). -/
theorem sqlite_load_table_spec_witness :
    (loadTable
      [(1, [("a", Value.Int 1)]), (2, [("a", Value.Int 2)]), (4, [("a", Value.Int 4)])]
      [(1, [("a", Value.Int 1)]), (2, [("a", Value.Int 20)]), (3, [("a", Value.Int 3)])]).2 =
      [ReadResult.Data (ReaderContext.Diff DataEventType.Delete
          (some [Value.Int 2]) [("a", Value.Int 2)]) EMPTY_OFFSET,
        ReadResult.Data (ReaderContext.Diff DataEventType.Insert
          (some [Value.Int 2]) [("a", Value.Int 20)]) EMPTY_OFFSET,
        ReadResult.Data (ReaderContext.Diff DataEventType.Insert
          (some [Value.Int 3]) [("a", Value.Int 3)]) EMPTY_OFFSET,
        ReadResult.Data (ReaderContext.Diff DataEventType.Delete
          (some [Value.Int 4]) [("a", Value.Int 4)]) EMPTY_OFFSET,
        ReadResult.FinishedSource true] := by
  have h := sqlite_load_table_spec
    [(1, [("a", Value.Int 1)]), (2, [("a", Value.Int 2)]), (4, [("a", Value.Int 4)])]
    [(1, [("a", Value.Int 1)]), (2, [("a", Value.Int 20)]), (3, [("a", Value.Int 3)])]
    (by decide)
  exact h.trans (by decide)

/-- modify_time, when deletions are enabled or the memo has no entry for the
path, answers the filesystem mtime, leaves known_files and the mode alone and
touches at most its own memo key. -/
theorem modify_time_spec (w : World) (s : FilesystemScanner) (entry : String)
    (hcm : s.streaming_mode.are_deletions_enabled = true ∨
      alistGet s.cached_modify_times entry = none) :
    (modify_time w s entry).1 = (alistGet w.files entry).bind FileInfo.mtime ∧
    (modify_time w s entry).2.known_files = s.known_files ∧
    (modify_time w s entry).2.streaming_mode = s.streaming_mode ∧
    (∀ k, k ≠ entry → alistGet (modify_time w s entry).2.cached_modify_times k =
      alistGet s.cached_modify_times k) := by
  unfold modify_time
  by_cases hd : s.streaming_mode.are_deletions_enabled = true
  · simp [hd]
  · rcases hcm with h | h
    · exact absurd h hd
    · simp only [hd, Bool.false_eq_true, if_false, h]
      refine ⟨trivial, trivial, trivial, fun k hk => ?_⟩
      simp [alistGet_alistPut, hk]

/-- Unfolding of one seekStep application. -/
theorem seekStep_eq (w : World) (t : Nat) (p : String) (acc : FilesystemScanner)
    (e : String × FileInfo) :
    seekStep w t p acc e =
      match (modify_time w acc e.1).1 with
      | none => (modify_time w acc e.1).2
      | some m =>
        if mtimePathLe m e.1 t p then
          { (modify_time w acc e.1).2 with
            known_files := alistPut (modify_time w acc e.1).2.known_files e.1 m }
        else (modify_time w acc e.1).2 := rfl

/-- Folding seekStep over a duplicate-free slice of the filesystem rebuilds
known_files lookups pointwise: a path of the slice with resolvable mtime m
maps to m exactly when (m, path) is at most (target mtime, target path), and
every other lookup is untouched. -/
theorem seekStep_foldl (w : World) (t : Nat) (p : String) (l : List (String × FileInfo))
    (acc : FilesystemScanner)
    (hl : ∀ e ∈ l, alistGet w.files e.1 = some e.2)
    (hnodup : (l.map Prod.fst).Nodup)
    (hmemo : acc.streaming_mode.are_deletions_enabled = true ∨
      ∀ e ∈ l, alistGet acc.cached_modify_times e.1 = none) :
    ∀ q, alistGet (l.foldl (seekStep w t p) acc).known_files q =
      match alistGet l q with
      | some info =>
        match info.mtime with
        | some m => if mtimePathLe m q t p then some m else alistGet acc.known_files q
        | none => alistGet acc.known_files q
      | none => alistGet acc.known_files q := by
  induction l generalizing acc with
  | nil =>
    intro q
    rfl
  | cons e l ih =>
    intro q
    have hcons : ((e :: l).map Prod.fst) = e.1 :: l.map Prod.fst := rfl
    rw [hcons] at hnodup
    have hmem : e.1 ∉ l.map Prod.fst := (List.nodup_cons.mp hnodup).1
    have htl : (l.map Prod.fst).Nodup := (List.nodup_cons.mp hnodup).2
    have hmt := modify_time_spec w acc e.1
      (by
        rcases hmemo with h | h
        · exact Or.inl h
        · exact Or.inr (h e (List.mem_cons_self e l)))
    obtain ⟨hval, hknown, hmode, hcache⟩ := hmt
    rw [hl e (List.mem_cons_self e l)] at hval
    have hmemo2 : ∀ acc2 : FilesystemScanner,
        acc2.streaming_mode = acc.streaming_mode →
        (∀ k, k ≠ e.1 → alistGet acc2.cached_modify_times k =
          alistGet acc.cached_modify_times k) →
        (acc2.streaming_mode.are_deletions_enabled = true ∨
          ∀ e2 ∈ l, alistGet acc2.cached_modify_times e2.1 = none) := by
      intro acc2 hmode2 hcache2
      rcases hmemo with h | h
      · exact Or.inl (hmode2 ▸ h)
      · refine Or.inr fun e2 he2 => ?_
        have hne : e2.1 ≠ e.1 := by
          intro hk
          exact hmem (hk ▸ List.mem_map_of_mem Prod.fst he2)
        rw [hcache2 e2.1 hne]
        exact h e2 (List.mem_cons_of_mem e he2)
    have hstep : (e :: l).foldl (seekStep w t p) acc =
        l.foldl (seekStep w t p) (seekStep w t p acc e) := rfl
    rw [hstep, seekStep_eq w t p acc e]
    cases hmtv : (modify_time w acc e.1).1 with
    | none =>
      simp only [hmtv]
      rw [hmtv] at hval
      have hih := ih (modify_time w acc e.1).2
        (fun e2 he2 => hl e2 (List.mem_cons_of_mem e he2)) htl
        (hmemo2 _ hmode hcache) q
      rw [hih, hknown]
      have hval2 : e.2.mtime = none := by simpa using hval.symm
      by_cases hq : e.1 = q
      · subst hq
        have hnone : alistGet l e.1 = none :=
          alistGet_eq_none_of_not_mem l e.1 hmem
        simp [alistGet, hnone, hval2]
      · simp [alistGet, hq]
    | some m =>
      simp only [hmtv]
      rw [hmtv] at hval
      have hval2 : e.2.mtime = some m := by simpa using hval.symm
      by_cases hle : mtimePathLe m e.1 t p = true
      · rw [if_pos hle]
        have hih := ih { (modify_time w acc e.1).2 with
            known_files := alistPut (modify_time w acc e.1).2.known_files e.1 m }
          (fun e2 he2 => hl e2 (List.mem_cons_of_mem e he2)) htl
          (hmemo2 _ hmode hcache) q
        rw [hih]
        by_cases hq : e.1 = q
        · subst hq
          have hnone : alistGet l e.1 = none :=
            alistGet_eq_none_of_not_mem l e.1 hmem
          simp [alistGet, hnone, hval2, alistGet_alistPut, hknown, hle]
        · have hq2 : ¬ (q = e.1) := fun hh => hq hh.symm
          simp [alistGet, hq, alistGet_alistPut, hq2, hknown]
      · rw [if_neg hle]
        have hih := ih (modify_time w acc e.1).2
          (fun e2 he2 => hl e2 (List.mem_cons_of_mem e he2)) htl
          (hmemo2 _ hmode hcache) q
        rw [hih, hknown]
        by_cases hq : e.1 = q
        · subst hq
          have hnone : alistGet l e.1 = none :=
            alistGet_eq_none_of_not_mem l e.1 hmem
          simp [alistGet, hnone, hval2, hle]
        · simp [alistGet, hq]

/-- C5: seek_to_file first clears known_files; when the target metadata
reports not-found, the call succeeds with known_files left empty and nothing
else changed; when the target resolves with mtime t, the call succeeds, sets
the current action to reading the target, and known_files holds exactly the
currently matching regular files with resolvable mtime m such that (m, path)
is at most (t, target) lexicographically, each mapped to its current mtime. -/
theorem seek_to_file_spec (w : World) (s : FilesystemScanner) (p : String)
    (hnodup : (w.files.map Prod.fst).Nodup)
    (hmemo : s.cached_modify_times = []) :
    (alistGet w.files p = none →
      seek_to_file w s p = Except.ok { s with known_files := ([] : List (String × Nat)) }) ∧
    (∀ info t, alistGet w.files p = some info → info.mtime = some t →
      ((exceptOk? (seek_to_file w s p)).map fun s2 => s2.current_action) =
        some (some (PosixScannerAction.Read p)) ∧
      ∀ q, ((exceptOk? (seek_to_file w s p)).map fun s2 => alistGet s2.known_files q) =
        some (match alistGet w.files q with
          | some info2 =>
            match info2.mtime with
            | some m => if mtimePathLe m q t p then some m else none
            | none => none
          | none => none)) := by
  constructor
  · intro h
    unfold seek_to_file
    rw [h]
  · intro info t hp hmt
    unfold seek_to_file
    simp only [hp, hmt]
    have hfold := seekStep_foldl w t p w.files
      { s with known_files := ([] : List (String × Nat)) }
      (fun e he => alistGet_of_mem w.files hnodup e he) hnodup
      (Or.inr fun e _ => by simp [hmemo, alistGet])
    refine ⟨rfl, fun q => ?_⟩
    have hq := hfold q
    simp only [exceptOk?, Option.map]
    rw [hq]
    cases alistGet w.files q with
    | none => rfl
    | some info2 =>
      obtain ⟨mtv, cont⟩ := info2
      cases mtv with
      | none => rfl
      | some m =>
        by_cases hle : mtimePathLe m q t p = true
        · simp [hle]
        · simp [hle, alistGet]

/-- Witness for seek_to_file_spec: three files with mtimes 5, 7, 9 sought at
the middle one. -/
theorem seek_to_file_spec_witness :
    ((exceptOk? (seek_to_file
        ⟨[("a", ⟨some 5, []⟩), ("b", ⟨some 7, []⟩), ("c", ⟨some 9, []⟩)], [], 0⟩
        ⟨ConnectorMode.Static, none, [], none, [], none, []⟩ "b")).map
      fun s2 => alistGet s2.known_files "a") = some (some 5) ∧
    ((exceptOk? (seek_to_file
        ⟨[("a", ⟨some 5, []⟩), ("b", ⟨some 7, []⟩), ("c", ⟨some 9, []⟩)], [], 0⟩
        ⟨ConnectorMode.Static, none, [], none, [], none, []⟩ "b")).map
      fun s2 => alistGet s2.known_files "c") = some none := by
  have h := (seek_to_file_spec
    ⟨[("a", ⟨some 5, []⟩), ("b", ⟨some 7, []⟩), ("c", ⟨some 9, []⟩)], [], 0⟩
    ⟨ConnectorMode.Static, none, [], none, [], none, []⟩ "b"
    (by decide) rfl).2 ⟨some 7, []⟩ 7 (by decide) rfl
  exact ⟨(h.2 "a").trans (by decide), (h.2 "c").trans (by decide)⟩

end Pathway
